import Mathlib

/-!
Verification of the website_crawler repository's core algorithms:
the encoding-robust fetch layer, the recency-selection policy, URL-based
deduplication, date-descending output ordering, and the date extraction
helpers.  Each definition is a shallow embedding of a concrete function of
the repository (the Python source file and function are named in its doc
comment).  Network effects are abstracted: the collected per-channel item
buckets, the per-attempt network outcomes, and the per-codec byte decoding
results become explicit inputs of the embedded functions.
-/

/-! ### Character and string helpers (Python `str` semantics) -/

/-- Python whitespace characters as used by `str.strip()` and the regex
class backslash-s (ASCII subset; exotic Unicode whitespace is not modelled). -/
def pyIsSpace (c : Char) : Bool :=
  c = ' ' || c = '\t' || c = '\n' || c = '\r' || c = Char.ofNat 11 || c = Char.ofNat 12

/-- Numeric value of a decimal digit character. -/
def digitVal (c : Char) : Nat := c.toNat - '0'.toNat

/-- The separator class (dash, slash or dot) of the primary date regex. -/
def isSepChar (c : Char) : Bool := c = '-' || c = '/' || c = '.'

/-- Greedy `\s*`: drop leading whitespace. -/
def skipWs (cs : List Char) : List Char := cs.dropWhile pyIsSpace

/-- Python `str.strip()`: remove leading and trailing whitespace. -/
def pyStrip (s : String) : String :=
  String.mk (((s.data.dropWhile pyIsSpace).reverse.dropWhile pyIsSpace).reverse)

/-- The separator normalization of `_extract_date`
(`src/AssocChamber/acfic_policy_crawler.py`, `src/AssocChamber/cflp_crawler.py`,
`src/plugins/assoc_acfic_policy.py`): replace each 年 and 月 by a dash and
delete each 日. -/
def normalizeCN (s : String) : String :=
  String.mk (s.data.foldr
    (fun c acc =>
      if c = '年' then '-' :: acc
      else if c = '月' then '-' :: acc
      else if c = '日' then acc
      else c :: acc) [])

/-! ### Calendar dates (Python `datetime.date` semantics) -/

/-- A calendar date, in general unvalidated; validity is checked by
`validYMD` exactly where the Python code constructs a `datetime`. -/
structure Date where
  year : Nat
  month : Nat
  day : Nat
deriving DecidableEq

/-- Gregorian leap-year rule, as in Python's `datetime`. -/
def isLeap (y : Nat) : Bool := y % 4 == 0 && (y % 100 != 0 || y % 400 == 0)

/-- Number of days of month `m` in year `y`. -/
def daysInMonth (y m : Nat) : Nat :=
  if m = 2 then (if isLeap y then 29 else 28)
  else if m = 4 ∨ m = 6 ∨ m = 9 ∨ m = 11 then 30
  else 31

/-- Validity check performed by constructing `datetime(y, m, d)`:
year in `1..9999`, month in `1..12`, day within the month. -/
def validYMD (y m d : Nat) : Bool :=
  decide (1 ≤ y ∧ y ≤ 9999 ∧ 1 ≤ m ∧ m ≤ 12 ∧ 1 ≤ d ∧ d ≤ daysInMonth y m)

/-- Comparison of `datetime.date` values (lexicographic on year, month, day). -/
def dateLe (a b : Date) : Bool :=
  decide (a.year < b.year ∨ (a.year = b.year ∧
    (a.month < b.month ∨ (a.month = b.month ∧ a.day ≤ b.day))))

/-- The minimum `datetime` value `datetime.min`, viewed as a date. -/
def dateMin : Date := ⟨1, 1, 1⟩

/-- Zero-padding to two digits, as `strftime` does for `%m` and `%d`. -/
def pad2 (n : Nat) : String := if n < 10 then "0" ++ toString n else toString n

/-- The format `strftime('%Y-%m-%d')` for the years `20XX` produced by the
date regex. -/
def fmtYMD (y m d : Nat) : String := toString y ++ "-" ++ pad2 m ++ "-" ++ pad2 d

/-! ### The date regexes of `_extract_date`

Primary pattern `(20dd)SP SEP SP(d|dd)SP SEP SP(d|dd)` (where `SEP` is dash, slash or dot,
`SP` is `\s*`, and `d` a decimal digit) and
fallback pattern `(20\d{2}-\d{1,2}-\d{1,2})`, with `re.search` semantics:
leftmost starting position, greedy `\d{1,2}` with backtracking.
Only ASCII decimal digits are modelled for `\d`. -/

/-- Match the final greedy `\d{1,2}` group (the day); nothing follows it in
the pattern, so two digits are taken when available. -/
def day2? : List Char → Option Nat
  | [] => none
  | [c1] => if c1.isDigit then some (digitVal c1) else none
  | c1 :: c2 :: _ =>
    if c1.isDigit then
      (if c2.isDigit then some (digitVal c1 * 10 + digitVal c2) else some (digitVal c1))
    else none

/-- Match SP-SEP-SP (whitespace, one separator, whitespace) and return the remainder. -/
def sepSkip (cs : List Char) : Option (List Char) :=
  match skipWs cs with
  | [] => none
  | c :: rest => if isSepChar c then some (skipWs rest) else none

/-- Match SP-SEP-SP followed by the day group. -/
def parseSepDay (cs : List Char) : Option Nat := (sepSkip cs).bind day2?

/-- Match month group, SP-SEP-SP, day group
with the regex's greedy backtracking: a two-digit month is preferred and the
one-digit reading is retried when the rest of the pattern fails after it. -/
def monthDay? : List Char → Option (Nat × Nat)
  | [] => none
  | c1 :: rest1 =>
    if c1.isDigit then
      match rest1 with
      | c2 :: rest2 =>
        if c2.isDigit then
          match parseSepDay rest2 with
          | some d => some (digitVal c1 * 10 + digitVal c2, d)
          | none => (parseSepDay rest1).map (fun d => (digitVal c1, d))
        else (parseSepDay rest1).map (fun d => (digitVal c1, d))
      | [] => (parseSepDay rest1).map (fun d => (digitVal c1, d))
    else none

/-- Match the primary pattern anchored at the given position, returning the
three captured groups as numbers (`int()` of the captured digit strings). -/
def primaryAt : List Char → Option (Nat × Nat × Nat)
  | c0 :: c1 :: c2 :: c3 :: rest =>
    if c0 = '2' && c1 = '0' && c2.isDigit && c3.isDigit then
      match sepSkip rest with
      | some r => (monthDay? r).map (fun p => (2000 + digitVal c2 * 10 + digitVal c3, p.1, p.2))
      | none => none
    else none
  | _ => none

/-- Leftmost search for the primary pattern (`re.search`). -/
def searchPrimary : List Char → Option (Nat × Nat × Nat)
  | [] => none
  | c :: rest =>
    match primaryAt (c :: rest) with
    | some g => some g
    | none => searchPrimary rest

/-- Match the final `\d{1,2}` of the fallback pattern, returning the
matched characters. -/
def fbDay : List Char → Option (List Char)
  | [] => none
  | [c1] => if c1.isDigit then some [c1] else none
  | c1 :: c2 :: _ =>
    if c1.isDigit then
      (if c2.isDigit then some [c1, c2] else some [c1])
    else none

/-- One-digit-month reading of the fallback pattern tail `-\d{1,2}`. -/
def fbTry1 (c1 : Char) : List Char → Option (List Char)
  | c :: r => if c = '-' then (fbDay r).map (fun ds => c1 :: '-' :: ds) else none
  | [] => none

/-- Match `\d{1,2}-\d{1,2}` of the fallback pattern (greedy month with
backtracking), returning the matched characters. -/
def fbMonthDay : List Char → Option (List Char)
  | [] => none
  | c1 :: rest1 =>
    if c1.isDigit then
      match rest1 with
      | c2 :: rest2 =>
        if c2.isDigit then
          match rest2 with
          | c3 :: rest3 =>
            if c3 = '-' then
              match fbDay rest3 with
              | some ds => some (c1 :: c2 :: '-' :: ds)
              | none => fbTry1 c1 rest1
            else fbTry1 c1 rest1
          | [] => fbTry1 c1 rest1
        else fbTry1 c1 rest1
      | [] => fbTry1 c1 rest1
    else none

/-- Match the fallback pattern `(20\d{2}-\d{1,2}-\d{1,2})` anchored at the
given position, returning the matched substring. -/
def fallbackAt : List Char → Option (List Char)
  | c0 :: c1 :: c2 :: c3 :: c4 :: rest =>
    if c0 = '2' && c1 = '0' && c2.isDigit && c3.isDigit && c4 = '-' then
      (fbMonthDay rest).map (fun tail => c0 :: c1 :: c2 :: c3 :: '-' :: tail)
    else none
  | _ => none

/-- Leftmost search for the fallback pattern. -/
def searchFallback : List Char → Option (List Char)
  | [] => none
  | c :: rest =>
    match fallbackAt (c :: rest) with
    | some g => some g
    | none => searchFallback rest

/-- Shallow embedding of `_extract_date`
(`src/AssocChamber/acfic_policy_crawler.py` lines 58-76; textually repeated in
`src/AssocChamber/cflp_crawler.py` lines 42-59 and
`src/plugins/assoc_acfic_policy.py` lines 275-290, which differ only in the
initial `strip()`, irrelevant to `re.search`): normalize Chinese separators,
search the primary pattern, validate via `datetime(y, m, d)` and zero-pad on
success, otherwise try the fallback pattern and return its raw match. -/
def extract_date (s : String) : Option String :=
  let t := normalizeCN (pyStrip s)
  match searchPrimary t.data with
  | some (y, m, d) => if validYMD y m d then some (fmtYMD y m d) else none
  | none =>
    match searchFallback t.data with
    | some cs => some (String.mk cs)
    | none => none

/-- The primary branch of `_extract_date` alone, with the fallback branch
removed; the unreachability claim states `extract_date` coincides with it. -/
def extract_date_primary (s : String) : Option String :=
  let t := normalizeCN (pyStrip s)
  match searchPrimary t.data with
  | some (y, m, d) => if validYMD y m d then some (fmtYMD y m d) else none
  | none => none

/-! ### Unreachability of the fallback branch -/

lemma not_space_of_digit {c : Char} (hd : c.isDigit = true) : pyIsSpace c = false := by
  by_contra h
  rw [Bool.not_eq_false] at h
  simp only [pyIsSpace, Bool.or_eq_true, decide_eq_true_eq] at h
  rcases h with ((((h | h) | h) | h) | h) | h <;> subst h <;> exact absurd hd (by decide)

lemma skipWs_cons {c : Char} (h : pyIsSpace c = false) (r : List Char) :
    skipWs (c :: r) = c :: r := by
  simp [skipWs, List.dropWhile_cons, h]

lemma day2?_isSome {c : Char} (hd : c.isDigit = true) (r : List Char) :
    (day2? (c :: r)).isSome = true := by
  cases r with
  | nil => simp [day2?, hd]
  | cons c2 r2 => by_cases h2 : c2.isDigit <;> simp [day2?, hd, h2]

lemma fbDay_head_digit : ∀ {cs ds : List Char}, fbDay cs = some ds →
    ∃ c r, cs = c :: r ∧ c.isDigit = true := by
  intro cs ds h
  cases cs with
  | nil => simp [fbDay] at h
  | cons c1 rest =>
    cases rest with
    | nil =>
      by_cases hd : c1.isDigit
      · exact ⟨c1, [], rfl, hd⟩
      · simp [fbDay, hd] at h
    | cons c2 r2 =>
      by_cases hd : c1.isDigit
      · exact ⟨c1, _, rfl, hd⟩
      · simp [fbDay, hd] at h

lemma parseSepDay_dash {r : List Char} (h : ∃ c rr, r = c :: rr ∧ c.isDigit = true) :
    (parseSepDay ('-' :: r)).isSome = true := by
  obtain ⟨c, rr, rfl, hd⟩ := h
  have h1 : skipWs ('-' :: c :: rr) = '-' :: c :: rr := skipWs_cons (by decide) _
  have h2 : skipWs (c :: rr) = c :: rr := skipWs_cons (not_space_of_digit hd) _
  have hsep : sepSkip ('-' :: c :: rr) = some (c :: rr) := by
    simp [sepSkip, h1, h2, isSepChar]
  simp only [parseSepDay, hsep, Option.bind_some]
  exact day2?_isSome hd rr

lemma fbTry1_imp {c1 : Char} {rest1 t : List Char} (h : fbTry1 c1 rest1 = some t) :
    (parseSepDay rest1).isSome = true := by
  cases rest1 with
  | nil => simp [fbTry1] at h
  | cons c r =>
    by_cases hc : c = '-'
    · subst hc
      cases hf : fbDay r with
      | none => simp [fbTry1, hf] at h
      | some ds => exact parseSepDay_dash (fbDay_head_digit hf)
    · simp [fbTry1, hc] at h

lemma monthDay?_isSome {c1 : Char} {rest1 : List Char} (hd : c1.isDigit = true)
    (h : (parseSepDay rest1).isSome = true ∨
      ∃ c2 rest2, rest1 = c2 :: rest2 ∧ c2.isDigit = true ∧ (parseSepDay rest2).isSome = true) :
    (monthDay? (c1 :: rest1)).isSome = true := by
  rcases h with h | ⟨c2, rest2, rfl, hd2, h2⟩
  · cases rest1 with
    | nil => simpa [monthDay?, hd] using h
    | cons c2 rest2 =>
      by_cases h2d : c2.isDigit
      · cases hps : parseSepDay rest2 with
        | none => simpa [monthDay?, hd, h2d, hps] using h
        | some d => simp [monthDay?, hd, h2d, hps]
      · simpa [monthDay?, hd, h2d] using h
  · cases hps : parseSepDay rest2 with
    | none => rw [hps] at h2; simp at h2
    | some d => simp [monthDay?, hd, hd2, hps]

lemma fbMonthDay_head_digit : ∀ {cs t : List Char}, fbMonthDay cs = some t →
    ∃ c r, cs = c :: r ∧ c.isDigit = true := by
  intro cs t h
  cases cs with
  | nil => simp [fbMonthDay] at h
  | cons c1 rest1 =>
    by_cases hd : c1.isDigit
    · exact ⟨c1, rest1, rfl, hd⟩
    · simp [fbMonthDay, hd] at h

lemma fbMonthDay_imp : ∀ {cs t : List Char}, fbMonthDay cs = some t →
    (monthDay? cs).isSome = true := by
  intro cs t h
  cases cs with
  | nil => simp [fbMonthDay] at h
  | cons c1 rest1 =>
    by_cases hd : c1.isDigit
    · refine monthDay?_isSome hd ?_
      cases rest1 with
      | nil => simp [fbMonthDay, hd, fbTry1] at h
      | cons c2 rest2 =>
        by_cases h2d : c2.isDigit
        · cases rest2 with
          | nil =>
            simp only [fbMonthDay, hd, if_pos, h2d, if_true] at h
            exact Or.inl (fbTry1_imp h)
          | cons c3 rest3 =>
            by_cases h3 : c3 = '-'
            · subst h3
              cases hf : fbDay rest3 with
              | none =>
                simp only [fbMonthDay, hd, h2d, if_true, hf] at h
                exact Or.inl (fbTry1_imp h)
              | some ds =>
                exact Or.inr ⟨c2, '-' :: rest3, rfl, h2d,
                  parseSepDay_dash (fbDay_head_digit hf)⟩
            · simp only [fbMonthDay, hd, h2d, if_true, h3, if_false] at h
              exact Or.inl (fbTry1_imp h)
        · simp only [fbMonthDay, hd, h2d, if_true, if_false] at h
          exact Or.inl (fbTry1_imp h)
    · simp [fbMonthDay, hd] at h

lemma fallbackAt_imp : ∀ {cs t : List Char}, fallbackAt cs = some t →
    (primaryAt cs).isSome = true := by
  intro cs t h
  match cs with
  | [] => simp [fallbackAt] at h
  | [_] => simp [fallbackAt] at h
  | [_, _] => simp [fallbackAt] at h
  | [_, _, _] => simp [fallbackAt] at h
  | [_, _, _, _] => simp [fallbackAt] at h
  | c0 :: c1 :: c2 :: c3 :: c4 :: rest =>
    by_cases hg : (c0 = '2' && c1 = '0' && c2.isDigit && c3.isDigit && c4 = '-') = true
    · simp only [Bool.and_eq_true, decide_eq_true_eq] at hg
      obtain ⟨⟨⟨⟨h0, h1⟩, h2⟩, h3⟩, h4⟩ := hg
      subst h0; subst h1; subst h4
      cases hf : fbMonthDay rest with
      | none => simp [fallbackAt, h2, h3, hf] at h
      | some tail =>
        obtain ⟨c, r, rfl, hcd⟩ := fbMonthDay_head_digit hf
        have hm : (monthDay? (c :: r)).isSome = true := fbMonthDay_imp hf
        have hsep : sepSkip ('-' :: c :: r) = some (c :: r) := by
          have hw1 : skipWs ('-' :: c :: r) = '-' :: c :: r := skipWs_cons (by decide) _
          have hw2 : skipWs (c :: r) = c :: r := skipWs_cons (not_space_of_digit hcd) _
          simp [sepSkip, hw1, hw2, isSepChar]
        simp only [primaryAt, hsep]
        rw [if_pos (by simp [h2, h3])]
        cases hmd : monthDay? (c :: r) with
        | none => rw [hmd] at hm; simp at hm
        | some p => simp
    · simp only [fallbackAt, if_neg hg] at h
      simp at h

lemma searchFallback_imp : ∀ {cs : List Char}, (searchFallback cs).isSome = true →
    (searchPrimary cs).isSome = true := by
  intro cs
  induction cs with
  | nil => simp [searchFallback]
  | cons c rest ih =>
    intro h
    cases hp : primaryAt (c :: rest) with
    | some g => simp [searchPrimary, hp]
    | none =>
      cases hf : fallbackAt (c :: rest) with
      | some t =>
        have hps := fallbackAt_imp hf
        rw [hp] at hps
        simp at hps
      | none =>
        rw [searchFallback, hf] at h
        rw [searchPrimary, hp]
        exact ih h

lemma extract_eq_primary (s : String) : extract_date s = extract_date_primary s := by
  cases hp : searchPrimary (normalizeCN (pyStrip s)).data with
  | some g =>
    obtain ⟨y, m, d⟩ := g
    simp [extract_date, extract_date_primary, hp]
  | none =>
    cases hf : searchFallback (normalizeCN (pyStrip s)).data with
    | some t =>
      have h2 := @searchFallback_imp ((normalizeCN (pyStrip s)).data) (by rw [hf]; rfl)
      rw [hp] at h2
      simp at h2
    | none => simp [extract_date, extract_date_primary, hp, hf]

/-- C10: on every input the date extractor's looser fallback regex branch is
unreachable — a fallback-pattern match implies a primary-pattern match, which
makes `extract_date` coincide with its primary branch `extract_date_primary`;
hence the result is always either `none` or a validated, zero-padded date. -/
theorem c10_fallback_unreachable :
    (∀ s : String, extract_date s = extract_date_primary s) ∧
    (∀ cs : List Char, (searchFallback cs).isSome = true → (searchPrimary cs).isSome = true) :=
  ⟨extract_eq_primary, fun _ h => searchFallback_imp h⟩

/-- Witness for C10 at a concrete input containing a fallback-shaped date. -/
theorem c10_fallback_unreachable_witness :
    (searchPrimary ("x2025-1-2".data)).isSome = true :=
  c10_fallback_unreachable.2 ("x2025-1-2".data) (by decide)

/-- C4: the date extractor rejects month 13 and February 30, zero-pads valid
dates, and in general every non-`none` result is the zero-padded rendering of
a calendar-valid year-month-day triple (never a truncated or defaulted
string). -/
theorem c4_date_validation :
    extract_date "2025年13月1日" = none ∧
    extract_date "2025-02-30" = none ∧
    extract_date "2025-3-5" = some "2025-03-05" ∧
    (∀ s r, extract_date s = some r →
      ∃ y m d, validYMD y m d = true ∧ r = fmtYMD y m d) := by
  refine ⟨by decide, by decide, by decide, ?_⟩
  intro s r h
  rw [extract_eq_primary] at h
  cases hp : searchPrimary (normalizeCN (pyStrip s)).data with
  | none => simp [extract_date_primary, hp] at h
  | some g =>
    obtain ⟨y, m, d⟩ := g
    by_cases hv : validYMD y m d = true
    · refine ⟨y, m, d, hv, ?_⟩
      simp [extract_date_primary, hp, hv] at h
      exact h.symm
    · simp [extract_date_primary, hp, hv] at h

/-- Witness for C4's soundness part at a concrete input. -/
theorem c4_date_validation_witness :
    ∃ y m d, validYMD y m d = true ∧ "2025-03-05" = fmtYMD y m d :=
  c4_date_validation.2.2.2 "2025-3-5" "2025-03-05" (by decide)

/-! ### Python `int()` and the `_to_date` / `strptime` date parsers -/

/-- Value of a nonempty all-digit character run (decimal). -/
def natDigits? (ds : List Char) : Option Nat :=
  if ds.isEmpty then none
  else if ds.all Char.isDigit then some (ds.foldl (fun acc c => acc * 10 + digitVal c) 0)
  else none

/-- Python `int(str)`: surrounding whitespace and one optional sign are
accepted around a nonempty digit run (numeric-literal underscores are not
modelled). -/
def pyInt? (cs : List Char) : Option Int :=
  match (((cs.dropWhile pyIsSpace).reverse.dropWhile pyIsSpace).reverse) with
  | '+' :: ds => (natDigits? ds).map Int.ofNat
  | '-' :: ds => (natDigits? ds).map (fun n => -(n : Int))
  | ds => (natDigits? ds).map Int.ofNat

/-- Python `str.split('-')`: the list of dash-free parts, with empty parts
kept (the empty string yields one empty part). -/
def splitDash : List Char → List (List Char)
  | [] => [[]]
  | c :: rest =>
    if c = '-' then [] :: splitDash rest
    else
      match splitDash rest with
      | part :: parts => (c :: part) :: parts
      | [] => [[c]]

/-- Construction `date(int(y), int(m), int(d))`, `None` on `ValueError`. -/
def mkDateValid? (y m d : Int) : Option Date :=
  if 0 ≤ y ∧ 0 ≤ m ∧ 0 ≤ d ∧ validYMD y.toNat m.toNat d.toNat = true then
    some ⟨y.toNat, m.toNat, d.toNat⟩
  else none

/-- Shallow embedding of the `_to_date` closure of the plugin handlers
(`src/plugins/assoc_acfic_policy.py` lines 159-164,
`src/plugins/assoc_chinaisa.py` lines 133-138): split on dashes into exactly
three parts, convert each with `int()`, construct a real `date`, and return
`None` on any failure. -/
def to_date (s : String) : Option Date :=
  match splitDash s.data with
  | [ys, ms, ds] =>
    match pyInt? ys, pyInt? ms, pyInt? ds with
    | some y, some m, some d => mkDateValid? y m d
    | _, _, _ => none
  | _ => none

/-- Bounded nonempty digit run (helper for the `strptime` format model). -/
def digitRun (cs : List Char) (lo hi : Nat) : Bool :=
  decide (lo ≤ cs.length ∧ cs.length ≤ hi) && cs.all Char.isDigit

/-- Shallow embedding of `datetime.strptime(s, '%Y-%m-%d')` (used by the
global sort keys in `src/plugins/assoc_acfic_policy.py` lines 186-190,
`src/plugins/assoc_cnia.py` lines 238-243 and the sort key of
`src/plugins/assoc_chinaisa.py` line 161): full-string match of one-to-four
year digits, dash, one-to-two month digits, dash, one-to-two day digits,
then calendar validation; `none` models the raised `ValueError`. -/
def strptimeYMD (s : String) : Option Date :=
  match splitDash s.data with
  | [ys, ms, ds] =>
    if digitRun ys 1 4 && digitRun ms 1 2 && digitRun ds 1 2 then
      let y := ys.foldl (fun acc c => acc * 10 + digitVal c) 0
      let m := ms.foldl (fun acc c => acc * 10 + digitVal c) 0
      let d := ds.foldl (fun acc c => acc * 10 + digitVal c) 0
      if validYMD y m d then some ⟨y, m, d⟩ else none
    else none
  | _ => none

/-- The previous calendar day; `today - timedelta(days=2)` is modelled as a
double application. -/
def predDate (a : Date) : Date :=
  if 1 < a.day then ⟨a.year, a.month, a.day - 1⟩
  else if 1 < a.month then ⟨a.year, a.month - 1, daysInMonth a.year (a.month - 1)⟩
  else ⟨a.year - 1, 12, 31⟩

/-! ### The news record and Python's stable descending sort -/

/-- The canonical news record (`News` pydantic model of the plugins and
`model.News` of the AssocChamber crawlers). -/
structure News where
  title : String
  url : String
  origin : String
  summary : String
  publish_date : String
deriving DecidableEq

/-- Stable insertion for descending order by key: the new element goes in
front of the first element whose key is less than or equal to its own, hence
after every earlier element with a strictly greater or an equal key. -/
def insDesc {α : Type} (k : α → Date) (x : α) : List α → List α
  | [] => [x]
  | y :: ys => if dateLe (k y) (k x) then x :: y :: ys else y :: insDesc k x ys

/-- Model of Python's stable `list.sort(key=..., reverse=True)` /
`sorted(..., reverse=True)` for date-valued keys: a stable descending
insertion sort (Python's timsort is stable, and a stable descending sort of
a given list is unique, so this is extensionally faithful). -/
def pySortDesc {α : Type} (k : α → Date) : List α → List α
  | [] => []
  | x :: xs => insDesc k x (pySortDesc k xs)

/-- Descending sortedness by a date key. -/
def SortedDescBy {α : Type} (k : α → Date) (l : List α) : Prop :=
  l.Pairwise (fun a b => dateLe (k b) (k a) = true)

lemma dateLe_refl (a : Date) : dateLe a a = true := by simp [dateLe]

lemma dateLe_total (a b : Date) : dateLe a b = true ∨ dateLe b a = true := by
  simp only [dateLe, decide_eq_true_eq]
  omega

lemma dateLe_trans {a b c : Date} (h1 : dateLe a b = true) (h2 : dateLe b c = true) :
    dateLe a c = true := by
  simp only [dateLe, decide_eq_true_eq] at h1 h2 ⊢
  omega

lemma dateLe_antisymm {a b : Date} (h1 : dateLe a b = true) (h2 : dateLe b a = true) :
    a = b := by
  obtain ⟨ya, ma, da⟩ := a
  obtain ⟨yb, mb, db⟩ := b
  simp only [dateLe, decide_eq_true_eq] at h1 h2
  simp only [Date.mk.injEq]
  omega

lemma dateLe_of_not {a b : Date} (h : dateLe a b = false) : dateLe b a = true := by
  rcases dateLe_total a b with h1 | h1
  · rw [h1] at h; exact absurd h (by simp)
  · exact h1

lemma insDesc_perm {α : Type} (k : α → Date) (x : α) (l : List α) :
    (insDesc k x l).Perm (x :: l) := by
  induction l with
  | nil => rfl
  | cons y ys ih =>
    by_cases h : dateLe (k y) (k x) = true
    · simp [insDesc, h]
    · simp only [insDesc, h, if_false, Bool.false_eq_true]
      exact (ih.cons y).trans (List.Perm.swap x y ys)

lemma pySortDesc_perm {α : Type} (k : α → Date) (l : List α) :
    (pySortDesc k l).Perm l := by
  induction l with
  | nil => rfl
  | cons x xs ih => exact (insDesc_perm k x (pySortDesc k xs)).trans (ih.cons x)

lemma mem_insDesc {α : Type} {k : α → Date} {x a : α} {l : List α} :
    a ∈ insDesc k x l ↔ a = x ∨ a ∈ l := by
  constructor
  · intro h
    have := (insDesc_perm k x l).mem_iff.mp h
    simpa using this
  · intro h
    refine (insDesc_perm k x l).mem_iff.mpr ?_
    simpa using h

lemma insDesc_sorted {α : Type} {k : α → Date} {x : α} {l : List α}
    (h : SortedDescBy k l) : SortedDescBy k (insDesc k x l) := by
  induction l with
  | nil => simp [insDesc, SortedDescBy]
  | cons y ys ih =>
    rw [SortedDescBy, List.pairwise_cons] at h
    by_cases hle : dateLe (k y) (k x) = true
    · rw [SortedDescBy, insDesc, if_pos hle, List.pairwise_cons]
      refine ⟨?_, List.pairwise_cons.mpr h⟩
      intro b hb
      rcases List.mem_cons.mp hb with rfl | hb
      · exact hle
      · exact dateLe_trans (h.1 b hb) hle
    · rw [SortedDescBy, insDesc, if_neg hle, List.pairwise_cons]
      refine ⟨?_, ih h.2⟩
      intro b hb
      rcases mem_insDesc.mp hb with rfl | hb
      · exact dateLe_of_not (Bool.eq_false_iff.mpr hle)
      · exact h.1 b hb

lemma pySortDesc_sorted {α : Type} (k : α → Date) (l : List α) :
    SortedDescBy k (pySortDesc k l) := by
  induction l with
  | nil => simp [pySortDesc, SortedDescBy]
  | cons x xs ih => exact insDesc_sorted ih

lemma insDesc_filter {α : Type} (k : α → Date) (x : α) (l : List α) (c : Date) :
    (insDesc k x l).filter (fun a => decide (k a = c)) =
      if k x = c then x :: l.filter (fun a => decide (k a = c))
      else l.filter (fun a => decide (k a = c)) := by
  induction l with
  | nil => by_cases hx : k x = c <;> simp [insDesc, List.filter, hx]
  | cons y ys ih =>
    by_cases hle : dateLe (k y) (k x) = true
    · rw [insDesc, if_pos hle]
      by_cases hx : k x = c <;> simp [List.filter_cons, hx]
    · have hyx : k y ≠ k x := by
        intro he
        rw [he] at hle
        exact hle (dateLe_refl (k x))
      rw [insDesc, if_neg hle, List.filter_cons]
      by_cases hy : k y = c
      · have hx : ¬ (k x = c) := fun he => hyx (hy.trans he.symm)
        rw [ih, if_neg hx]
        simp [hy, hx]
      · rw [ih]
        by_cases hx : k x = c <;> simp [hx, hy]

lemma pySortDesc_stable {α : Type} (k : α → Date) (l : List α) (c : Date) :
    (pySortDesc k l).filter (fun a => decide (k a = c)) =
      l.filter (fun a => decide (k a = c)) := by
  induction l with
  | nil => rfl
  | cons x xs ih =>
    rw [pySortDesc, insDesc_filter, List.filter_cons]
    by_cases hx : k x = c <;> simp [hx, ih]

/-! ### The per-channel recency selection -/

/-- Membership test of the today partition (`_to_date(n.publish_date) == today`). -/
def isTodayB (today : Date) (n : News) : Bool :=
  decide (to_date n.publish_date = some today)

/-- Membership test of the recent window (`d and earliest <= d <= today`). -/
def inWindowB (earliest today : Date) (n : News) : Bool :=
  match to_date n.publish_date with
  | some d => dateLe earliest d && dateLe d today
  | none => false

/-- The window sort key `_to_date(n.publish_date or '') or earliest`. -/
def chKey (earliest : Date) (n : News) : Date := (to_date n.publish_date).getD earliest

/-- Shallow embedding of the per-channel selection of the plugin handlers
(`src/plugins/assoc_acfic_policy.py` lines 156-173 and
`src/plugins/assoc_chinaisa.py` lines 131-146, which are the same algorithm):
keep all of today's items if any exist, otherwise sort the items of the last
three days descending by date (Python's stable sort) and keep at most three,
otherwise nothing.  The channel's collected bucket is the input; `or ''` on
`publish_date` is a no-op for the always-string field and is omitted. -/
def selectChannel (today : Date) (bucket : List News) : List News :=
  let earliest := predDate (predDate today)
  let todays := bucket.filter (isTodayB today)
  if todays.isEmpty then
    (pySortDesc (chKey earliest) (bucket.filter (inWindowB earliest today))).take 3
  else todays

/-- C2: the three-tier per-channel policy — all today-dated items uncapped
when any exist; otherwise the window items in stable descending date order,
truncated to three; otherwise empty. -/
theorem c2_channel_selection :
    ∀ (today : Date) (bucket : List News) (earliest : Date) (todays windows : List News),
      earliest = predDate (predDate today) →
      todays = bucket.filter (isTodayB today) →
      windows = bucket.filter (inWindowB earliest today) →
      (todays ≠ [] → selectChannel today bucket = todays) ∧
      (todays = [] → windows = [] → selectChannel today bucket = []) ∧
      (todays = [] →
        selectChannel today bucket = (pySortDesc (chKey earliest) windows).take 3 ∧
        (pySortDesc (chKey earliest) windows).Perm windows ∧
        SortedDescBy (chKey earliest) (pySortDesc (chKey earliest) windows) ∧
        (∀ c : Date,
          (pySortDesc (chKey earliest) windows).filter (fun n => decide (chKey earliest n = c)) =
            windows.filter (fun n => decide (chKey earliest n = c))) ∧
        (selectChannel today bucket).length ≤ 3) := by
  intro today bucket earliest todays windows he ht hw
  subst he; subst ht; subst hw
  refine ⟨?_, ?_, ?_⟩
  · intro hne
    rw [selectChannel, if_neg ?_]
    rw [List.isEmpty_iff]
    exact hne
  · intro hte hwe
    rw [selectChannel, if_pos (List.isEmpty_iff.mpr hte), hwe]
    rfl
  · intro hte
    have hsel : selectChannel today bucket =
        (pySortDesc (chKey (predDate (predDate today)))
          (bucket.filter (inWindowB (predDate (predDate today)) today))).take 3 := by
      rw [selectChannel, if_pos (List.isEmpty_iff.mpr hte)]
    refine ⟨hsel, pySortDesc_perm _ _, pySortDesc_sorted _ _,
      fun c => pySortDesc_stable _ _ c, ?_⟩
    rw [hsel, List.length_take]
    exact min_le_left _ _

/-- Witness for C2 (today tier wins and is uncapped; window fallback sorts
and caps at three). -/
theorem c2_channel_selection_witness :
    selectChannel ⟨2025, 1, 10⟩
        [⟨"t1", "u1", "o", "s", "2025-01-10"⟩, ⟨"t2", "u2", "o", "s", "2025-01-08"⟩] =
      [⟨"t1", "u1", "o", "s", "2025-01-10"⟩] := by
  have h := (c2_channel_selection ⟨2025, 1, 10⟩
    [⟨"t1", "u1", "o", "s", "2025-01-10"⟩, ⟨"t2", "u2", "o", "s", "2025-01-08"⟩]
    (predDate (predDate ⟨2025, 1, 10⟩)) _ _ rfl rfl rfl).1 (by decide)
  rw [h]
  decide

/-! ### The global date-descending output sort -/

/-- The global sort key `_gkey` of `src/plugins/assoc_acfic_policy.py`
lines 186-190 and `src/plugins/assoc_cnia.py` lines 238-243:
`strptime(publish_date, '%Y-%m-%d')`, or `datetime.min` when parsing fails
(including the empty string). -/
def gSortKey (n : News) : Date := (strptimeYMD n.publish_date).getD dateMin

/-- The final global sort `sorted(items, key=_gkey, reverse=True)` of
`src/plugins/assoc_acfic_policy.py` line 191 and
`src/plugins/assoc_cnia.py` line 244. -/
def globalSortDesc (l : List News) : List News := pySortDesc gSortKey l

lemma strptimeYMD_valid {s : String} {dt : Date} (h : strptimeYMD s = some dt) :
    validYMD dt.year dt.month dt.day = true := by
  unfold strptimeYMD at h
  split at h
  · split at h
    · simp only at h
      split at h
      · rename_i hv
        rw [← Option.some.inj h]
        exact hv
      · simp at h
    · simp at h
  · simp at h

lemma dateMin_le (n : News) : dateLe dateMin (gSortKey n) = true := by
  unfold gSortKey
  cases h : strptimeYMD n.publish_date with
  | none => exact dateLe_refl dateMin
  | some dt =>
    have hv := strptimeYMD_valid h
    simp only [validYMD, decide_eq_true_eq] at hv
    simp only [Option.getD_some, dateLe, dateMin, decide_eq_true_eq]
    omega

/-- C9: the final output order is `publish_date` descending under the key
that maps every empty or unparsable date to the minimum date, the sort is a
permutation of its input, and no item with the minimal (unparsable) key is
followed by an item with a larger key — dated items never come after
undated ones. -/
theorem c9_global_sort_descending :
    ∀ l : List News,
      (globalSortDesc l).Perm l ∧
      SortedDescBy gSortKey (globalSortDesc l) ∧
      (∀ n, strptimeYMD n.publish_date = none → gSortKey n = dateMin) ∧
      (∀ pre a post, globalSortDesc l = pre ++ a :: post →
        strptimeYMD a.publish_date = none →
        ∀ b ∈ post, gSortKey b = dateMin) := by
  intro l
  refine ⟨pySortDesc_perm _ _, pySortDesc_sorted _ _, ?_, ?_⟩
  · intro n hn
    unfold gSortKey
    rw [hn]
    rfl
  · intro pre a post hsplit hnone b hb
    have hsorted : SortedDescBy gSortKey (pre ++ a :: post) := by
      rw [← hsplit]
      exact pySortDesc_sorted _ _
    rw [SortedDescBy] at hsorted
    have hpost := (List.pairwise_cons.mp (List.pairwise_append.mp hsorted).2.1).1 b hb
    have hka : gSortKey a = dateMin := by
      unfold gSortKey
      rw [hnone]
      rfl
    rw [hka] at hpost
    exact dateLe_antisymm hpost (dateMin_le b)

/-- Witness for C9 on a concrete mixed list: an undated item sorts last. -/
theorem c9_global_sort_descending_witness :
    (globalSortDesc [⟨"a", "u1", "o", "s", ""⟩, ⟨"b", "u2", "o", "s", "2025-01-08"⟩]).Perm
        [⟨"a", "u1", "o", "s", ""⟩, ⟨"b", "u2", "o", "s", "2025-01-08"⟩] ∧
    gSortKey ⟨"a", "u1", "o", "s", ""⟩ = dateMin ∧
    globalSortDesc [⟨"a", "u1", "o", "s", ""⟩, ⟨"b", "u2", "o", "s", "2025-01-08"⟩] =
      [⟨"b", "u2", "o", "s", "2025-01-08"⟩, ⟨"a", "u1", "o", "s", ""⟩] :=
  ⟨(c9_global_sort_descending _).1,
   (c9_global_sort_descending
      [⟨"a", "u1", "o", "s", ""⟩, ⟨"b", "u2", "o", "s", "2025-01-08"⟩]).2.2.1
      ⟨"a", "u1", "o", "s", ""⟩ (by decide),
   by decide⟩

/-! ### URL deduplication (first occurrence wins) -/

/-- Worker of the URL deduplication loops: walk the list with the set of
already-seen urls, skipping every item whose url was seen before
(`src/plugins/assoc_chinaisa.py` lines 168-173 with `seen_urls`, and
`src/plugins/assoc_cnia.py` lines 229-233 with `seen_global`). -/
def dedupGo (seen : List String) : List News → List News
  | [] => []
  | n :: ns => if n.url ∈ seen then dedupGo seen ns else n :: dedupGo (n.url :: seen) ns

/-- URL deduplication of an aggregated list, starting from an empty seen
set; keeps the first occurrence of every url. -/
def dedupByUrl (l : List News) : List News := dedupGo [] l

lemma dedupGo_sublist (seen : List String) (l : List News) : (dedupGo seen l).Sublist l := by
  induction l generalizing seen with
  | nil => simp [dedupGo]
  | cons n ns ih =>
    by_cases hm : n.url ∈ seen
    · rw [dedupGo, if_pos hm]
      exact (ih seen).cons n
    · rw [dedupGo, if_neg hm]
      exact (ih (n.url :: seen)).cons₂ n

lemma dedupGo_not_seen {seen : List String} {l : List News} {m : News}
    (h : m ∈ dedupGo seen l) : m.url ∉ seen := by
  induction l generalizing seen with
  | nil => simp [dedupGo] at h
  | cons n ns ih =>
    by_cases hm : n.url ∈ seen
    · rw [dedupGo, if_pos hm] at h
      exact ih h
    · rw [dedupGo, if_neg hm] at h
      rcases List.mem_cons.mp h with rfl | h2
      · exact hm
      · have := ih h2
        intro hc
        exact this (List.mem_cons_of_mem _ hc)

lemma dedupGo_pairwise (seen : List String) (l : List News) :
    (dedupGo seen l).Pairwise (fun a b => a.url ≠ b.url) := by
  induction l generalizing seen with
  | nil => simp [dedupGo]
  | cons n ns ih =>
    by_cases hm : n.url ∈ seen
    · rw [dedupGo, if_pos hm]
      exact ih seen
    · rw [dedupGo, if_neg hm]
      refine List.pairwise_cons.mpr ⟨?_, ih (n.url :: seen)⟩
      intro b hb he
      exact (dedupGo_not_seen hb) (by rw [← he]; exact List.mem_cons_self _ _)

lemma dedupGo_find? {seen : List String} (l : List News) {u : String} (hu : u ∉ seen) :
    (dedupGo seen l).find? (fun n => decide (n.url = u)) =
      l.find? (fun n => decide (n.url = u)) := by
  induction l generalizing seen with
  | nil => rfl
  | cons n ns ih =>
    by_cases hm : n.url ∈ seen
    · have hne : ¬ (n.url = u) := fun he => hu (he ▸ hm)
      rw [dedupGo, if_pos hm, List.find?_cons_of_neg _ (by simpa using hne)]
      exact ih hu
    · by_cases he : n.url = u
      · rw [dedupGo, if_neg hm, List.find?_cons_of_pos _ (by simpa using he),
          List.find?_cons_of_pos _ (by simpa using he)]
      · rw [dedupGo, if_neg hm, List.find?_cons_of_neg _ (by simpa using he),
          List.find?_cons_of_neg _ (by simpa using he)]
        refine ih ?_
        intro hc
        rcases List.mem_cons.mp hc with hc1 | hc2
        · exact he hc1.symm
        · exact hu hc2

lemma dedupGo_cover {seen : List String} {l : List News} {n : News} (hn : n ∈ l) :
    n.url ∈ seen ∨ ∃ m ∈ dedupGo seen l, m.url = n.url := by
  induction l generalizing seen with
  | nil => simp at hn
  | cons x xs ih =>
    by_cases hm : x.url ∈ seen
    · rw [dedupGo, if_pos hm]
      rcases List.mem_cons.mp hn with rfl | h2
      · exact Or.inl hm
      · exact ih h2
    · rw [dedupGo, if_neg hm]
      rcases List.mem_cons.mp hn with rfl | h2
      · exact Or.inr ⟨n, List.mem_cons_self _ _, rfl⟩
      · rcases @ih (x.url :: seen) h2 with hs | ⟨m, hm1, hm2⟩
        · rcases List.mem_cons.mp hs with he | hs2
          · exact Or.inr ⟨x, List.mem_cons_self _ _, he.symm⟩
          · exact Or.inl hs2
        · exact Or.inr ⟨m, List.mem_cons_of_mem _ hm1, hm2⟩

lemma dedupByUrl_ne_nil {l : List News} (h : l ≠ []) : dedupByUrl l ≠ [] := by
  cases l with
  | nil => exact absurd rfl h
  | cons n ns =>
    rw [dedupByUrl, dedupGo, if_neg (by simp)]
    simp

/-! ### The scraper/plugin response envelopes -/

/-- The transport envelope `NewsResponse` of
`src/model/response/news_response.py` (the plugins declare the identical
`Output` pydantic model). -/
structure NewsResponse where
  news_list : Option (List News)
  status : String
  err_code : Option String
  err_info : Option String
deriving DecidableEq

/-- Shallow embedding of the response construction of
`ACFICPolicyCrawler.get_news` (`src/AssocChamber/acfic_policy_crawler.py`
lines 177-180), taking the collected item list as input: `news_list or None`,
`status = 'OK' if news_list else 'EMPTY'`, `NO_DATA` on empty. -/
def getNewsResponse (news : List News) : NewsResponse :=
  if news.isEmpty then ⟨none, "EMPTY", some "NO_DATA", some "No policies parsed"⟩
  else ⟨some news, "OK", none, none⟩

/-- One entry of the diagnostics summary `f"{ch}:{len(bucket)}->{len(selected)}"`. -/
def channelDiag (name : String) (collected selected : Nat) : String :=
  name ++ ":" ++ toString collected ++ "->" ++ toString selected

/-- Shallow embedding of the post-collection phase of `handler` in
`src/plugins/assoc_acfic_policy.py` (lines 123-206): the network/HTML
collection is abstracted into the per-channel buckets of parsed items (the
channel id paired with its collected list, in processing order); the
per-channel selection, the `any_filtered_due_to_time` flag, the diagnostics
summary, the global date-descending sort and the response branches follow
the code.  A caught outer exception is modelled by the `exn` input. -/
def acficHandler (buckets : List (String × List News)) (today : Date)
    (exn : Option String) : NewsResponse :=
  match exn with
  | some e => ⟨none, "ERROR", some "PLUGIN_ERROR", some e⟩
  | none =>
    let news := (buckets.map (fun b => selectChannel today b.2)).flatten
    let anyFiltered := buckets.any (fun b => !b.2.isEmpty && (selectChannel today b.2).isEmpty)
    let diags := buckets.map (fun b => channelDiag b.1 b.2.length (selectChannel today b.2).length)
    let sortedNews := pySortDesc gSortKey news
    if sortedNews.isEmpty then
      if anyFiltered then
        ⟨none, "EMPTY", some "NO_RECENT", some "今天无更新，且最近三天均无内容"⟩
      else
        ⟨none, "EMPTY", some "NO_DATA",
          some ("No data (parsed/selected summary: " ++
            (if diags.isEmpty then "no channels or no items parsed"
             else String.intercalate "; " diags) ++ ")")⟩
    else ⟨some sortedNews, "OK", none, none⟩

/-- The guarded sort key of `src/plugins/assoc_chinaisa.py` line 161:
`datetime.strptime(...) if (publish_date or '').strip() else datetime.min`. -/
def chinaisaKey (n : News) : Date :=
  if (pyStrip n.publish_date).data.isEmpty then dateMin
  else (strptimeYMD n.publish_date).getD dateMin

/-- The sort at `src/plugins/assoc_chinaisa.py` lines 158-165 runs inside
`try/except: pass`: when `strptime` raises for any item with a non-blank but
unparsable date, the whole `sorted` call is abandoned and the list is left
in aggregation order. -/
def chinaisaSortStep (l : List News) : List News :=
  if l.all (fun n => (pyStrip n.publish_date).data.isEmpty || (strptimeYMD n.publish_date).isSome)
  then pySortDesc chinaisaKey l
  else l

/-- Shallow embedding of the post-collection phase of `handler` in
`src/plugins/assoc_chinaisa.py` (lines 100-185), with collection abstracted
into per-column buckets as for `acficHandler`: per-column selection (same
algorithm), `any_filtered_due_to_time`, diagnostics, the guarded global sort,
URL deduplication keeping first occurrences, and the response branches. -/
def chinaisaHandler (buckets : List (String × List News)) (today : Date)
    (exn : Option String) : NewsResponse :=
  match exn with
  | some e => ⟨none, "ERROR", some "PLUGIN_ERROR", some e⟩
  | none =>
    let items := (buckets.map (fun b => selectChannel today b.2)).flatten
    let anyFiltered := buckets.any (fun b => !b.2.isEmpty && (selectChannel today b.2).isEmpty)
    let diags := buckets.map (fun b => channelDiag b.1 b.2.length (selectChannel today b.2).length)
    let uniqItems := dedupByUrl (chinaisaSortStep items)
    if uniqItems.isEmpty then
      if anyFiltered then
        ⟨none, "EMPTY", some "NO_RECENT", some "今天无更新，且最近三天均无内容"⟩
      else
        ⟨none, "EMPTY", some "NO_DATA",
          some ("无数据（解析/筛选摘要: " ++
            (if diags.isEmpty then "未配置栏目或未解析到列表项"
             else String.intercalate "; " diags) ++ ")")⟩
    else ⟨some uniqItems, "OK", none, none⟩

/-- The response envelope invariant of the spec: `status == "OK"` exactly
when `news_list` is a non-empty list, and any non-OK status carries a null
`news_list`. -/
def respOkInvariant (o : NewsResponse) : Prop :=
  (o.status = "OK" ↔ ∃ l, o.news_list = some l ∧ l ≠ []) ∧
  (o.status ≠ "OK" → o.news_list = none)

lemma respOkInvariant_err {s : String} (hs : s ≠ "OK") (c i : Option String) :
    respOkInvariant ⟨none, s, c, i⟩ := by
  constructor
  · constructor
    · intro h; exact absurd h hs
    · rintro ⟨l, hl, -⟩; simp at hl
  · intro _; rfl

lemma respOkInvariant_ok {l : List News} (h : ¬ l.isEmpty = true) :
    respOkInvariant ⟨some l, "OK", none, none⟩ := by
  constructor
  · constructor
    · intro _
      exact ⟨l, rfl, by simpa [List.isEmpty_iff] using h⟩
    · intro _; rfl
  · intro h2; exact absurd rfl h2

/-- C1: for the `ACFICPolicyCrawler.get_news` response and for every
invocation of the `assoc_acfic_policy` and `assoc_chinaisa` plugin handlers
(including the caught-exception path), `status == "OK"` iff `news_list` is a
non-empty list, and on `"EMPTY"` or `"ERROR"` the `news_list` is null. -/
theorem c1_response_invariant :
    (∀ news : List News, respOkInvariant (getNewsResponse news)) ∧
    (∀ buckets today exn, respOkInvariant (acficHandler buckets today exn)) ∧
    (∀ buckets today exn, respOkInvariant (chinaisaHandler buckets today exn)) := by
  refine ⟨?_, ?_, ?_⟩
  · intro news
    by_cases h : news.isEmpty = true
    · rw [getNewsResponse, if_pos h]
      exact respOkInvariant_err (by decide) _ _
    · rw [getNewsResponse, if_neg h]
      exact respOkInvariant_ok h
  · intro buckets today exn
    cases exn with
    | some e => exact respOkInvariant_err (by decide) _ _
    | none =>
      rw [acficHandler]
      by_cases h : (pySortDesc gSortKey ((buckets.map (fun b => selectChannel today b.2)).flatten)).isEmpty = true
      · rw [if_pos h]
        by_cases hf : buckets.any (fun b => !b.2.isEmpty && (selectChannel today b.2).isEmpty) = true
        · rw [if_pos hf]; exact respOkInvariant_err (by decide) _ _
        · rw [if_neg hf]; exact respOkInvariant_err (by decide) _ _
      · rw [if_neg h]
        exact respOkInvariant_ok h
  · intro buckets today exn
    cases exn with
    | some e => exact respOkInvariant_err (by decide) _ _
    | none =>
      rw [chinaisaHandler]
      by_cases h : (dedupByUrl (chinaisaSortStep ((buckets.map (fun b => selectChannel today b.2)).flatten))).isEmpty = true
      · rw [if_pos h]
        by_cases hf : buckets.any (fun b => !b.2.isEmpty && (selectChannel today b.2).isEmpty) = true
        · rw [if_pos hf]; exact respOkInvariant_err (by decide) _ _
        · rw [if_neg hf]; exact respOkInvariant_err (by decide) _ _
      · rw [if_neg h]
        exact respOkInvariant_ok h

/-- Witness for C1: concrete empty and error invocations have null lists. -/
theorem c1_response_invariant_witness :
    (getNewsResponse []).news_list = none ∧
    (acficHandler [] ⟨2025, 1, 10⟩ none).news_list = none ∧
    (chinaisaHandler [] ⟨2025, 1, 10⟩ (some "boom")).news_list = none :=
  ⟨(c1_response_invariant.1 []).2 (by decide),
   (c1_response_invariant.2.1 [] ⟨2025, 1, 10⟩ none).2 (by decide),
   (c1_response_invariant.2.2 [] ⟨2025, 1, 10⟩ (some "boom")).2 (by decide)⟩

lemma anyFiltered_iff {buckets : List (String × List News)} {today : Date}
    (H : ∀ b ∈ buckets, selectChannel today b.2 = []) :
    (buckets.any (fun b => !b.2.isEmpty && (selectChannel today b.2).isEmpty) = true)
      ↔ ∃ b ∈ buckets, b.2 ≠ [] := by
  rw [List.any_eq_true]
  constructor
  · rintro ⟨b, hb, hcond⟩
    rw [Bool.and_eq_true, Bool.not_eq_true'] at hcond
    refine ⟨b, hb, ?_⟩
    intro hnil
    rw [hnil] at hcond
    simp at hcond
  · rintro ⟨b, hb, hne⟩
    refine ⟨b, hb, ?_⟩
    rw [Bool.and_eq_true, Bool.not_eq_true']
    constructor
    · cases hb2 : b.2 with
      | nil => exact absurd hb2 hne
      | cons x xs => rfl
    · rw [H b hb]; rfl

lemma flatten_selections_nil {buckets : List (String × List News)} {today : Date}
    (H : ∀ b ∈ buckets, selectChannel today b.2 = []) :
    (buckets.map (fun b => selectChannel today b.2)).flatten = [] := by
  induction buckets with
  | nil => rfl
  | cons b bs ih =>
    rw [List.map_cons, List.flatten_cons, H b (List.mem_cons_self _ _),
      ih (fun x hx => H x (List.mem_cons_of_mem _ hx))]
    rfl

/-- C3: whenever the aggregate selection is empty (every channel's selection
came out empty), both plugin handlers answer `EMPTY` with a null list, report
`NO_RECENT` exactly when some channel had collected items (which the window
filter then removed), and report `NO_DATA` exactly when no channel had any
parsed item. -/
theorem c3_empty_diagnostics :
    ∀ (buckets : List (String × List News)) (today : Date),
      (∀ b ∈ buckets, selectChannel today b.2 = []) →
      ((acficHandler buckets today none).status = "EMPTY" ∧
       (acficHandler buckets today none).news_list = none ∧
       ((acficHandler buckets today none).err_code = some "NO_RECENT" ↔
          ∃ b ∈ buckets, b.2 ≠ []) ∧
       ((acficHandler buckets today none).err_code = some "NO_DATA" ↔
          ∀ b ∈ buckets, b.2 = [])) ∧
      ((chinaisaHandler buckets today none).status = "EMPTY" ∧
       (chinaisaHandler buckets today none).news_list = none ∧
       ((chinaisaHandler buckets today none).err_code = some "NO_RECENT" ↔
          ∃ b ∈ buckets, b.2 ≠ []) ∧
       ((chinaisaHandler buckets today none).err_code = some "NO_DATA" ↔
          ∀ b ∈ buckets, b.2 = [])) := by
  intro buckets today H
  have hjoin := flatten_selections_nil H
  by_cases hf : buckets.any (fun b => !b.2.isEmpty && (selectChannel today b.2).isEmpty) = true
  · obtain ⟨b0, hb0, hne0⟩ := (anyFiltered_iff H).mp hf
    have hval1 : acficHandler buckets today none =
        ⟨none, "EMPTY", some "NO_RECENT", some "今天无更新，且最近三天均无内容"⟩ := by
      simp only [acficHandler, hjoin, pySortDesc, List.isEmpty_nil, if_true]
      rw [if_pos hf]
    have hval2 : chinaisaHandler buckets today none =
        ⟨none, "EMPTY", some "NO_RECENT", some "今天无更新，且最近三天均无内容"⟩ := by
      simp only [chinaisaHandler, hjoin]
      rw [show chinaisaSortStep [] = [] from rfl, show dedupByUrl [] = [] from rfl]
      simp only [List.isEmpty_nil, if_true]
      rw [if_pos hf]
    rw [hval1, hval2]
    refine ⟨⟨rfl, rfl, ?_, ?_⟩, ⟨rfl, rfl, ?_, ?_⟩⟩ <;>
      first
      | exact ⟨fun _ => ⟨b0, hb0, hne0⟩, fun _ => rfl⟩
      | exact ⟨fun hc => absurd hc (by decide), fun hall => absurd (hall b0 hb0) hne0⟩
  · have hall : ∀ b ∈ buckets, b.2 = [] := by
      intro b hb
      by_contra hne
      exact hf ((anyFiltered_iff H).mpr ⟨b, hb, hne⟩)
    have hval1 : (acficHandler buckets today none).status = "EMPTY" ∧
        (acficHandler buckets today none).news_list = none ∧
        (acficHandler buckets today none).err_code = some "NO_DATA" := by
      simp only [acficHandler, hjoin, pySortDesc, List.isEmpty_nil, if_true]
      rw [if_neg hf]
      exact ⟨rfl, rfl, rfl⟩
    have hval2 : (chinaisaHandler buckets today none).status = "EMPTY" ∧
        (chinaisaHandler buckets today none).news_list = none ∧
        (chinaisaHandler buckets today none).err_code = some "NO_DATA" := by
      simp only [chinaisaHandler, hjoin]
      rw [show chinaisaSortStep [] = [] from rfl, show dedupByUrl [] = [] from rfl]
      simp only [List.isEmpty_nil, if_true]
      rw [if_neg hf]
      exact ⟨rfl, rfl, rfl⟩
    refine ⟨⟨hval1.1, hval1.2.1, ?_, ?_⟩, ⟨hval2.1, hval2.2.1, ?_, ?_⟩⟩
    · rw [hval1.2.2]
      exact ⟨fun hc => absurd hc (by decide),
        fun hex => absurd (hall hex.choose hex.choose_spec.1) hex.choose_spec.2⟩
    · rw [hval1.2.2]
      exact ⟨fun _ => hall, fun _ => rfl⟩
    · rw [hval2.2.2]
      exact ⟨fun hc => absurd hc (by decide),
        fun hex => absurd (hall hex.choose hex.choose_spec.1) hex.choose_spec.2⟩
    · rw [hval2.2.2]
      exact ⟨fun _ => hall, fun _ => rfl⟩

/-- Witness for C3: a channel containing only a stale item yields
`NO_RECENT`; no channels at all yields `NO_DATA`. -/
theorem c3_empty_diagnostics_witness :
    (acficHandler [("zy", [⟨"t", "u", "o", "s", "2024-01-01"⟩])] ⟨2025, 1, 10⟩ none).err_code =
        some "NO_RECENT" ∧
    (chinaisaHandler [] ⟨2025, 1, 10⟩ none).err_code = some "NO_DATA" :=
  ⟨((c3_empty_diagnostics [("zy", [⟨"t", "u", "o", "s", "2024-01-01"⟩])] ⟨2025, 1, 10⟩
      (by decide)).1.2.2.1).mpr
      ⟨("zy", [⟨"t", "u", "o", "s", "2024-01-01"⟩]), List.mem_cons_self _ _, by decide⟩,
   ((c3_empty_diagnostics [] ⟨2025, 1, 10⟩ (by decide)).2.2.2.2).mpr (by decide)⟩

/-- C8: URL deduplication keeps each url at most once — the result is a
sublist of the input whose urls are pairwise distinct, for every url the
surviving item is exactly the first item of the input with that url (later
duplicates are dropped), every collected url is still represented, and every
non-null `news_list` produced by the chinaisa handler is URL-deduplicated. -/
theorem c8_url_deduplication :
    (∀ l : List News,
      (dedupByUrl l).Pairwise (fun a b => a.url ≠ b.url) ∧
      (dedupByUrl l).Sublist l ∧
      (∀ u : String,
        (dedupByUrl l).find? (fun n => decide (n.url = u)) =
          l.find? (fun n => decide (n.url = u))) ∧
      (∀ n ∈ l, ∃ m ∈ dedupByUrl l, m.url = n.url)) ∧
    (∀ (buckets : List (String × List News)) (today : Date) (lst : List News),
      (chinaisaHandler buckets today none).news_list = some lst →
      lst.Pairwise (fun a b => a.url ≠ b.url)) := by
  constructor
  · intro l
    refine ⟨dedupGo_pairwise [] l, dedupGo_sublist [] l,
      fun u => dedupGo_find? l (by simp), fun n hn => ?_⟩
    rcases @dedupGo_cover ([] : List String) l n hn with hs | h
    · simp at hs
    · exact h
  · intro buckets today lst h
    rw [chinaisaHandler] at h
    by_cases he : (dedupByUrl (chinaisaSortStep
        ((buckets.map (fun b => selectChannel today b.2)).flatten))).isEmpty = true
    · rw [if_pos he] at h
      by_cases hf : buckets.any (fun b => !b.2.isEmpty && (selectChannel today b.2).isEmpty) = true
      · rw [if_pos hf] at h; simp at h
      · rw [if_neg hf] at h; simp at h
    · rw [if_neg he] at h
      have : lst = dedupByUrl (chinaisaSortStep
          ((buckets.map (fun b => selectChannel today b.2)).flatten)) :=
        (Option.some.inj h).symm
      rw [this]
      exact dedupGo_pairwise _ _

/-- Witness for C8: a concrete duplicate url is dropped, and the first
occurrence is kept. -/
theorem c8_url_deduplication_witness :
    (dedupByUrl [⟨"a", "u1", "o", "s", "2025-01-01"⟩, ⟨"b", "u1", "o", "s", "2025-01-02"⟩,
        ⟨"c", "u2", "o", "s", "2025-01-03"⟩]).find? (fun n => decide (n.url = "u1")) =
      some ⟨"a", "u1", "o", "s", "2025-01-01"⟩ ∧
    (chinaisaHandler [("c1", [⟨"t", "u", "o", "s", "2025-01-10"⟩])] ⟨2025, 1, 10⟩
        none).news_list.elim True (fun l => l.Pairwise (fun a b => a.url ≠ b.url)) := by
  constructor
  · rw [(c8_url_deduplication.1 [⟨"a", "u1", "o", "s", "2025-01-01"⟩,
      ⟨"b", "u1", "o", "s", "2025-01-02"⟩, ⟨"c", "u2", "o", "s", "2025-01-03"⟩]).2.2.1 "u1"]
    decide
  · have h := c8_url_deduplication.2 [("c1", [⟨"t", "u", "o", "s", "2025-01-10"⟩])]
      ⟨2025, 1, 10⟩ [⟨"t", "u", "o", "s", "2025-01-10"⟩] (by decide)
    rw [show (chinaisaHandler [("c1", [⟨"t", "u", "o", "s", "2025-01-10"⟩])] ⟨2025, 1, 10⟩
        none).news_list = some [⟨"t", "u", "o", "s", "2025-01-10"⟩] from by decide]
    simp only [Option.elim_some]
    exact h

/-! ### Charset candidate construction (`get_html_from_url`, `src/utils/tool.py`) -/

/-- The quote characters stripped by `strip('\"\\'')`. -/
def pyIsQuote (c : Char) : Bool := c = '"' || c = Char.ofNat 39

/-- Strip characters satisfying `p` from both ends (Python `str.strip(set)`). -/
def stripChars (p : Char → Bool) (cs : List Char) : List Char :=
  ((cs.dropWhile p).reverse.dropWhile p).reverse

/-- Shallow embedding of `_normalize_charset` (`src/utils/tool.py` lines
91-97, identical `_norm` in the plugin fetchers): strip whitespace, strip
quotes, lowercase (ASCII case folding modelled), map the GB2312/GBK family
to gb18030, the UTF8 spellings to utf-8, and the empty result to utf-8. -/
def normalize_charset (cs : String) : String :=
  let l := String.mk ((stripChars pyIsQuote (stripChars pyIsSpace cs.data)).map Char.toLower)
  if l = "gb2312" ∨ l = "gb-2312" ∨ l = "gbk" then "gb18030"
  else if l = "utf8" ∨ l = "utf-8" then "utf-8"
  else if l = "" then "utf-8"
  else l

/-- Characters of the meta charset token class (letters, digits, underscore,
dash). -/
def isCharsetTokenChar (c : Char) : Bool := c.isAlphanum || c = '_' || c = '-'

/-- Match the meta charset pattern (`charset`, optional whitespace, `=`,
optional whitespace, optional quote, then a nonempty token) anchored at the
given position, case-insensitively. -/
def matchMetaCharsetAt : List Char → Option (List Char)
  | c1 :: c2 :: c3 :: c4 :: c5 :: c6 :: c7 :: rest =>
    if c1.toLower = 'c' ∧ c2.toLower = 'h' ∧ c3.toLower = 'a' ∧ c4.toLower = 'r' ∧
        c5.toLower = 's' ∧ c6.toLower = 'e' ∧ c7.toLower = 't' then
      match skipWs rest with
      | '=' :: r2 =>
        let r3 := skipWs r2
        let r4 := match r3 with
          | q :: rq => if pyIsQuote q then rq else r3
          | [] => r3
        let tok := r4.takeWhile isCharsetTokenChar
        if tok.isEmpty then none else some tok
      | _ => none
    else none
  | _ => none

/-- Leftmost search for the meta charset pattern. -/
def searchMetaCharset : List Char → Option (List Char)
  | [] => none
  | c :: rest =>
    match matchMetaCharsetAt (c :: rest) with
    | some t => some t
    | none => searchMetaCharset rest

/-- Shallow embedding of `_encoding_from_meta` (`src/utils/tool.py` lines
107-115): scan only the first 4096 bytes of the body for a charset
declaration and normalize the captured token (the response bytes are
modelled as a character list). -/
def enc_from_meta (data : List Char) : Option String :=
  (searchMetaCharset (data.take 4096)).map (fun tok => normalize_charset (String.mk tok))

/-- Match the header pattern `charset=` followed by a nonempty run free of
semicolons and whitespace, anchored at the given position,
case-insensitively. -/
def matchHeaderCharsetAt : List Char → Option (List Char)
  | c1 :: c2 :: c3 :: c4 :: c5 :: c6 :: c7 :: rest =>
    if c1.toLower = 'c' ∧ c2.toLower = 'h' ∧ c3.toLower = 'a' ∧ c4.toLower = 'r' ∧
        c5.toLower = 's' ∧ c6.toLower = 'e' ∧ c7.toLower = 't' then
      match rest with
      | '=' :: r2 =>
        let tok := r2.takeWhile (fun c => !(c = ';' || pyIsSpace c))
        if tok.isEmpty then none else some tok
      | _ => none
    else none
  | _ => none

/-- Leftmost search for the header charset parameter. -/
def searchHeaderCharset : List Char → Option (List Char)
  | [] => none
  | c :: rest =>
    match matchHeaderCharsetAt (c :: rest) with
    | some t => some t
    | none => searchHeaderCharset rest

/-- Shallow embedding of `_encoding_from_header` (`src/utils/tool.py` lines
99-105): the `charset=` parameter of the Content-Type header if present,
else the response's declared encoding (when truthy), normalized. -/
def enc_from_header (contentType : String) (respEncoding : Option String) : Option String :=
  match searchHeaderCharset contentType.data with
  | some tok => some (normalize_charset (String.mk tok))
  | none =>
    match respEncoding with
    | some e => if e.data.isEmpty then none else some (normalize_charset e)
    | none => none

/-- The truthiness-guarded normalization of `resp.apparent_encoding`
(`app_enc = resp.apparent_encoding and _normalize_charset(...)`). -/
def apparentNorm (apparentEncoding : Option String) : Option String :=
  match apparentEncoding with
  | some a => if a.data.isEmpty then none else some (normalize_charset a)
  | none => none

/-- One step of candidate accumulation: `if e not in cand: cand.append(e)`. -/
def appendIfNew (cand : List String) (e : String) : List String :=
  if e ∈ cand then cand else cand ++ [e]

/-- Shallow embedding of the candidate-list assembly of `get_html_from_url`
(`src/utils/tool.py` lines 117-129): meta-declared encoding first, then the
apparent (statistical) encoding, then the header encoding, then the fixed
fallbacks utf-8 and gb18030, each appended only when not already present. -/
def buildCandidates (data : List Char) (apparentEncoding : Option String)
    (contentType : String) (respEncoding : Option String) : List String :=
  let cand1 := match enc_from_meta data with
    | some e => [e]
    | none => []
  let cand2 := match apparentNorm apparentEncoding with
    | some e => appendIfNew cand1 e
    | none => cand1
  let cand3 := match enc_from_header contentType respEncoding with
    | some e => appendIfNew cand2 e
    | none => cand2
  appendIfNew (appendIfNew cand3 "utf-8") "gb18030"

/-- Specification-side deduplication: keep the first occurrence of every
element, drop all later duplicates. -/
def dedupFirst : List String → List String
  | [] => []
  | x :: xs => x :: dedupFirst (xs.filter (fun y => decide (y ≠ x)))
termination_by l => l.length
decreasing_by
  simp only [List.length_cons]
  exact Nat.lt_succ_of_le (List.length_filter_le _ _)

/-- Option contents as a list. -/
def optList : Option String → List String
  | some e => [e]
  | none => []

lemma buildCandidates_foldl (data : List Char) (app : Option String)
    (ct : String) (enc : Option String) :
    buildCandidates data app ct enc =
      (optList (enc_from_meta data) ++ optList (apparentNorm app) ++
        optList (enc_from_header ct enc) ++ ["utf-8", "gb18030"]).foldl appendIfNew [] := by
  cases hm : enc_from_meta data <;> cases ha : apparentNorm app <;>
    cases hh : enc_from_header ct enc <;>
    simp [buildCandidates, optList, appendIfNew, hm, ha, hh]

lemma foldl_appendIfNew_eq (es : List String) : ∀ acc : List String,
    es.foldl appendIfNew acc = acc ++ dedupFirst (es.filter (fun y => decide (y ∉ acc))) := by
  induction es with
  | nil => intro acc; simp [dedupFirst]
  | cons e es ih =>
    intro acc
    rw [List.foldl_cons]
    by_cases he : e ∈ acc
    · rw [show appendIfNew acc e = acc from by simp [appendIfNew, he], ih]
      congr 1
      rw [List.filter_cons]
      simp [he]
    · rw [show appendIfNew acc e = acc ++ [e] from by simp [appendIfNew, he], ih,
        List.filter_cons]
      rw [show (decide (e ∉ acc)) = true from by simp [he]]
      simp only [if_true]
      rw [dedupFirst, List.append_assoc, List.singleton_append]
      have hfilter : List.filter (fun y => decide (y ∉ acc ++ [e])) es =
          List.filter (fun a => decide (a ≠ e) && decide (a ∉ acc)) es :=
        List.filter_congr
          (fun y hy => by by_cases h1 : y ∈ acc <;> by_cases h2 : y = e <;> simp [h1, h2])
      rw [List.filter_filter, hfilter]

lemma mem_foldl_appendIfNew {x : String} : ∀ (es acc : List String),
    x ∈ es.foldl appendIfNew acc → x ∈ acc ∨ x ∈ es := by
  intro es
  induction es with
  | nil =>
    intro acc h
    exact Or.inl h
  | cons e es ih =>
    intro acc h
    rw [List.foldl_cons] at h
    rcases ih _ h with h2 | h2
    · by_cases he : e ∈ acc
      · rw [appendIfNew, if_pos he] at h2
        exact Or.inl h2
      · rw [appendIfNew, if_neg he] at h2
        rcases List.mem_append.mp h2 with h3 | h3
        · exact Or.inl h3
        · rw [List.mem_singleton.mp h3]
          exact Or.inr (List.mem_cons_self _ _)
    · exact Or.inr (List.mem_cons_of_mem _ h2)

lemma normalize_charset_not_raw (s : String) :
    normalize_charset s ∉ (["gb2312", "gb-2312", "gbk", "utf8"] : List String) := by
  simp only [normalize_charset]
  set l := String.mk ((stripChars pyIsQuote (stripChars pyIsSpace s.data)).map Char.toLower)
  by_cases h1 : l = "gb2312" ∨ l = "gb-2312" ∨ l = "gbk"
  · rw [if_pos h1]; decide
  · rw [if_neg h1]
    by_cases h2 : l = "utf8" ∨ l = "utf-8"
    · rw [if_pos h2]; decide
    · rw [if_neg h2]
      by_cases h3 : l = ""
      · rw [if_pos h3]; decide
      · rw [if_neg h3]
        intro hm
        simp only [List.mem_cons, List.not_mem_nil, or_false] at hm
        rcases hm with h | h | h | h
        · exact h1 (Or.inl h)
        · exact h1 (Or.inr (Or.inl h))
        · exact h1 (Or.inr (Or.inr h))
        · exact h2 (Or.inl h)

lemma optList_norm_not_raw {o : Option String} {x : String}
    (ho : ∀ e, o = some e → ∃ s, e = normalize_charset s) (hx : x ∈ optList o) :
    x ∉ (["gb2312", "gb-2312", "gbk", "utf8"] : List String) := by
  cases o with
  | none => simp [optList] at hx
  | some e =>
    rw [optList, List.mem_singleton] at hx
    obtain ⟨s, hs⟩ := ho e rfl
    rw [hx, hs]
    exact normalize_charset_not_raw s

lemma enc_from_meta_norm {data : List Char} {e : String} (h : enc_from_meta data = some e) :
    ∃ s, e = normalize_charset s := by
  rw [enc_from_meta] at h
  cases hs : searchMetaCharset (data.take 4096) with
  | none => rw [hs] at h; simp at h
  | some tok =>
    rw [hs] at h
    exact ⟨String.mk tok, (Option.some.inj h).symm⟩

lemma apparentNorm_norm {o : Option String} {e : String} (h : apparentNorm o = some e) :
    ∃ s, e = normalize_charset s := by
  cases o with
  | none => simp [apparentNorm] at h
  | some a =>
    rw [apparentNorm] at h
    by_cases ha : a.data.isEmpty = true
    · rw [if_pos ha] at h; simp at h
    · rw [if_neg ha] at h
      exact ⟨a, (Option.some.inj h).symm⟩

lemma enc_from_header_norm {ct : String} {enc : Option String} {e : String}
    (h : enc_from_header ct enc = some e) : ∃ s, e = normalize_charset s := by
  cases hs : searchHeaderCharset ct.data with
  | some tok =>
    simp only [enc_from_header, hs] at h
    exact ⟨String.mk tok, (Option.some.inj h).symm⟩
  | none =>
    simp only [enc_from_header, hs] at h
    cases enc with
    | none => simp at h
    | some a =>
      dsimp only at h
      by_cases ha : a.data.isEmpty = true
      · rw [if_pos ha] at h; simp at h
      · rw [if_neg ha] at h
        exact ⟨a, (Option.some.inj h).symm⟩

/-- C6: the fetcher's candidate list is exactly the first-occurrence
deduplication of the priority sequence meta-declared encoding, apparent
encoding, header encoding, then the fixed fallbacks utf-8 and gb18030; the
meta scan only ever consults the first 4096 bytes; the GB2312/GBK spellings
normalize to gb18030 and the UTF8 spellings to utf-8, so no raw GB2312/GBK
or `utf8` spelling ever appears among the candidates. -/
theorem c6_candidate_priority :
    ∀ (data : List Char) (apparent : Option String) (contentType : String)
      (respEncoding : Option String),
      buildCandidates data apparent contentType respEncoding =
        dedupFirst (optList (enc_from_meta data) ++ optList (apparentNorm apparent) ++
          optList (enc_from_header contentType respEncoding) ++ ["utf-8", "gb18030"]) ∧
      enc_from_meta data = enc_from_meta (data.take 4096) ∧
      (∀ v ∈ buildCandidates data apparent contentType respEncoding,
        v ∉ (["gb2312", "gb-2312", "gbk", "utf8"] : List String)) ∧
      normalize_charset "GBK" = "gb18030" ∧ normalize_charset "gb2312" = "gb18030" ∧
      normalize_charset "gb-2312" = "gb18030" ∧ normalize_charset " \"GB2312\"" = "gb18030" ∧
      normalize_charset "UTF8" = "utf-8" ∧ normalize_charset "Utf-8" = "utf-8" := by
  intro data apparent contentType respEncoding
  refine ⟨?_, ?_, ?_, by decide, by decide, by decide, by decide, by decide, by decide⟩
  · rw [buildCandidates_foldl, foldl_appendIfNew_eq]
    rw [List.nil_append]
    congr 1
    rw [List.filter_eq_self]
    intro a _
    simp
  · simp [enc_from_meta, List.take_take]
  · intro v hv
    rw [buildCandidates_foldl] at hv
    rcases mem_foldl_appendIfNew _ _ hv with h | h
    · simp at h
    · rcases List.mem_append.mp h with h2 | h2
      · rcases List.mem_append.mp h2 with h3 | h3
        · rcases List.mem_append.mp h3 with h4 | h4
          · exact optList_norm_not_raw (fun e he => enc_from_meta_norm he) h4
          · exact optList_norm_not_raw (fun e he => apparentNorm_norm he) h4
        · exact optList_norm_not_raw (fun e he => enc_from_header_norm he) h3
      · rcases List.mem_cons.mp h2 with rfl | h3
        · decide
        · rw [List.mem_singleton.mp h3]
          decide

/-- Witness for C6 on a concrete response: a GBK meta declaration, a UTF-8
apparent encoding and a GBK header all normalize and deduplicate into the
two candidates gb18030 and utf-8. -/
theorem c6_candidate_priority_witness :
    buildCandidates "<head><meta charset=\"gb2312\"></head>".data (some "UTF-8")
        "text/html; charset=GBK" none =
      dedupFirst (optList (enc_from_meta "<head><meta charset=\"gb2312\"></head>".data) ++
        optList (apparentNorm (some "UTF-8")) ++
        optList (enc_from_header "text/html; charset=GBK" none) ++ ["utf-8", "gb18030"]) ∧
    buildCandidates "<head><meta charset=\"gb2312\"></head>".data (some "UTF-8")
        "text/html; charset=GBK" none = ["gb18030", "utf-8"] ∧
    "gbk" ∉ buildCandidates "<head><meta charset=\"gb2312\"></head>".data (some "UTF-8")
        "text/html; charset=GBK" none :=
  ⟨(c6_candidate_priority _ _ _ _).1, by decide,
   fun hm => (c6_candidate_priority "<head><meta charset=\"gb2312\"></head>".data
      (some "UTF-8") "text/html; charset=GBK" none).2.2.1 "gbk" hm (by decide)⟩

/-! ### Decode scoring (`_decode_with_best` and the plugin fetch loops)

Byte decoding itself is abstracted as a function from codec name to the
decoded text (`none` models a raised exception); the replacement-character
count is computed from the decoded text exactly as `txt.count('�')`. -/

/-- Number of replacement characters in a decoded text. -/
def countRepl (s : String) : Nat := s.data.countP (fun c => decide (c = Char.ofNat 0xFFFD))

/-- Strict lexicographic comparison of the Python score pairs. -/
def lexLtPair (a b : Nat × Nat) : Prop := a.1 < b.1 ∨ (a.1 = b.1 ∧ a.2 < b.2)

instance (a b : Nat × Nat) : Decidable (lexLtPair a b) := by
  unfold lexLtPair
  infer_instance

/-- The loop of `_decode_with_best` (`src/utils/tool.py` lines 131-146) over
the remaining candidates, carrying `(best_txt, best_bad, best_enc)`: a
candidate becomes the best when its count is strictly smaller, when it is
the first successful decode, or when its score pair
`(bad, 0 if utf-8 else 1)` is lexicographically below
`(best_bad, 1 if best_enc != utf-8 else 0)` — the tie preference for utf-8.
No early exit exists in this loop. -/
def decode_with_best_go (decode : String → Option String) :
    List String → Option String × Nat × Option String → Option String × Nat × Option String
  | [], st => st
  | ec :: rest, (bt, bb, be) =>
    match decode ec with
    | none => decode_with_best_go decode rest (bt, bb, be)
    | some txt =>
      if countRepl txt < bb ∨ bt = none ∨
          lexLtPair (countRepl txt, if ec = "utf-8" then 0 else 1)
            (bb, if be ≠ some "utf-8" then 1 else 0) then
        decode_with_best_go decode rest (some txt, countRepl txt, some ec)
      else
        decode_with_best_go decode rest (bt, bb, be)

/-- Shallow embedding of `_decode_with_best` (`src/utils/tool.py`
lines 131-146): fold over all candidates from the initial state
`(None, 10**9, None)` and return the best text. -/
def decode_with_best (decode : String → Option String) (cands : List String) : Option String :=
  (decode_with_best_go decode cands (none, 10 ^ 9, none)).1

/-- The decode loop of the plugin fetchers `_fetch_html`
(`src/plugins/assoc_acfic_policy.py` lines 254-266) and `_robust_fetch_html`
(`src/plugins/assoc_chinaisa.py` lines 449-461), carrying
`(best_txt, best_bad)`: a strictly smaller count wins, and the loop breaks
as soon as a candidate yields zero replacement characters. -/
def plugin_decode_go (decode : String → Option String) :
    List String → Option String × Nat → Option String
  | [], (bt, _) => bt
  | ec :: rest, (bt, bb) =>
    match decode ec with
    | none => plugin_decode_go decode rest (bt, bb)
    | some txt =>
      if countRepl txt < bb then
        if countRepl txt = 0 then some txt
        else plugin_decode_go decode rest (some txt, countRepl txt)
      else plugin_decode_go decode rest (bt, bb)

/-- The plugin decode loop from its initial state. -/
def plugin_decode_loop (decode : String → Option String) (cands : List String) : Option String :=
  plugin_decode_go decode cands (none, 10 ^ 9)

/-- The plugin fetchers' final `best_txt or data.decode('utf-8',
errors='ignore')`: Python `or` also replaces an empty best text. -/
def plugin_decode_result (decode : String → Option String) (utf8Ignore : String)
    (cands : List String) : String :=
  match plugin_decode_loop decode cands with
  | some t => if t.data.isEmpty then utf8Ignore else t
  | none => utf8Ignore

/-- The behaviour the claim ascribes to the decode step: return the decode
of the first candidate, in priority order, that yields zero substitutions. -/
def firstZeroDecode (decode : String → Option String) : List String → Option String
  | [] => none
  | ec :: rest =>
    match decode ec with
    | some txt => if countRepl txt = 0 then some txt else firstZeroDecode decode rest
    | none => firstZeroDecode decode rest

/-- A decode table on which two candidates both decode cleanly (zero
substitutions) but to different texts, as happens for bytes valid in both
gb18030 and utf-8. -/
def exDecode : String → Option String :=
  fun e => if e = "gb18030" then some "A" else if e = "utf-8" then some "B" else none

lemma decode_go_min (decode : String → Option String) :
    ∀ (cands : List String) (bt : Option String) (bb : Nat) (be : Option String) (t : String),
      (∀ u', bt = some u' → bb = countRepl u') →
      (decode_with_best_go decode cands (bt, bb, be)).1 = some t →
      (∀ u', bt = some u' → countRepl t ≤ bb) ∧
      (bt = some t ∨ ∃ c ∈ cands, decode c = some t) ∧
      (∀ c ∈ cands, ∀ u, decode c = some u → countRepl t ≤ countRepl u) := by
  intro cands
  induction cands with
  | nil =>
    intro bt bb be t hstate hres
    rw [decode_with_best_go] at hres
    refine ⟨?_, Or.inl hres, by simp⟩
    intro u' hu'
    rw [hu'] at hres
    rw [hstate u' hu', Option.some.inj hres]
  | cons ec rest ih =>
    intro bt bb be t hstate hres
    rw [decode_with_best_go] at hres
    cases hdec : decode ec with
    | none =>
      rw [hdec] at hres
      dsimp only at hres
      obtain ⟨hA, hB, hC⟩ := ih bt bb be t hstate hres
      refine ⟨hA, ?_, ?_⟩
      · rcases hB with h | ⟨c, hc, hcd⟩
        · exact Or.inl h
        · exact Or.inr ⟨c, List.mem_cons_of_mem _ hc, hcd⟩
      · intro c hc u hu
        rcases List.mem_cons.mp hc with rfl | hc2
        · rw [hdec] at hu; exact absurd hu (by simp)
        · exact hC c hc2 u hu
    | some txt =>
      rw [hdec] at hres
      dsimp only at hres
      by_cases hcond : countRepl txt < bb ∨ bt = none ∨
          lexLtPair (countRepl txt, if ec = "utf-8" then 0 else 1)
            (bb, if be ≠ some "utf-8" then 1 else 0)
      · rw [if_pos hcond] at hres
        obtain ⟨hA, hB, hC⟩ := ih (some txt) (countRepl txt) (some ec) t
          (fun u' hu' => by rw [Option.some.inj hu']) hres
        have htb : countRepl t ≤ countRepl txt := hA txt rfl
        refine ⟨?_, ?_, ?_⟩
        · intro u' hu'
          have hble : countRepl txt ≤ bb := by
            rcases hcond with h | h | h
            · exact Nat.le_of_lt h
            · rw [hu'] at h; exact absurd h (by simp)
            · rcases h with h | ⟨h, -⟩
              · exact Nat.le_of_lt h
              · exact Nat.le_of_eq h
          exact Nat.le_trans htb hble
        · rcases hB with h | ⟨c, hc, hcd⟩
          · exact Or.inr ⟨ec, List.mem_cons_self _ _, by rw [hdec, h]⟩
          · exact Or.inr ⟨c, List.mem_cons_of_mem _ hc, hcd⟩
        · intro c hc u hu
          rcases List.mem_cons.mp hc with rfl | hc2
          · rw [hdec] at hu
            rw [← Option.some.inj hu]
            exact htb
          · exact hC c hc2 u hu
      · rw [if_neg hcond] at hres
        push_neg at hcond
        obtain ⟨hnlt, hbt, -⟩ := hcond
        obtain ⟨u₀, hu₀⟩ := Option.ne_none_iff_exists'.mp hbt
        obtain ⟨hA, hB, hC⟩ := ih bt bb be t hstate hres
        have htbb : countRepl t ≤ bb := hA u₀ hu₀
        refine ⟨fun u' _ => htbb, ?_, ?_⟩
        · rcases hB with h | ⟨c, hc, hcd⟩
          · exact Or.inl h
          · exact Or.inr ⟨c, List.mem_cons_of_mem _ hc, hcd⟩
        · intro c hc u hu
          rcases List.mem_cons.mp hc with rfl | hc2
          · rw [hdec] at hu
            rw [← Option.some.inj hu]
            exact Nat.le_trans htbb hnlt
          · exact hC c hc2 u hu

lemma plugin_go_firstZero (decode : String → Option String) :
    ∀ (cands : List String) (bt : Option String) (bb : Nat) (t : String),
      0 < bb →
      firstZeroDecode decode cands = some t →
      plugin_decode_go decode cands (bt, bb) = some t := by
  intro cands
  induction cands with
  | nil => intro bt bb t _ h; simp [firstZeroDecode] at h
  | cons ec rest ih =>
    intro bt bb t hbb h
    rw [firstZeroDecode] at h
    rw [plugin_decode_go]
    cases hdec : decode ec with
    | none =>
      rw [hdec] at h
      dsimp only at h
      exact ih bt bb t hbb h
    | some txt =>
      rw [hdec] at h
      dsimp only at h
      dsimp only
      by_cases hz : countRepl txt = 0
      · rw [if_pos hz] at h
        rw [if_pos (by rw [hz]; exact hbb), if_pos hz]
        exact h
      · rw [if_neg hz] at h
        by_cases hlt : countRepl txt < bb
        · rw [if_pos hlt, if_neg hz]
          exact ih (some txt) (countRepl txt) t (Nat.pos_of_ne_zero hz) h
        · rw [if_neg hlt]
          exact ih bt bb t hbb h

lemma plugin_go_bound (decode : String → Option String) :
    ∀ (cands : List String) (bt : Option String) (bb : Nat) (t : String),
      (∀ u', bt = some u' → bb = countRepl u') →
      plugin_decode_go decode cands (bt, bb) = some t →
      countRepl t < bb ∨ (bt = some t ∧ countRepl t = bb) := by
  intro cands
  induction cands with
  | nil =>
    intro bt bb t hstate hres
    rw [plugin_decode_go] at hres
    exact Or.inr ⟨hres, by rw [← hstate t hres]⟩
  | cons ec rest ih =>
    intro bt bb t hstate hres
    rw [plugin_decode_go] at hres
    cases hdec : decode ec with
    | none =>
      rw [hdec] at hres
      dsimp only at hres
      exact ih bt bb t hstate hres
    | some txt =>
      rw [hdec] at hres
      dsimp only at hres
      by_cases hlt : countRepl txt < bb
      · rw [if_pos hlt] at hres
        by_cases hz : countRepl txt = 0
        · rw [if_pos hz] at hres
          left
          have ht : t = txt := (Option.some.inj hres).symm
          rw [ht]
          exact hlt
        · rw [if_neg hz] at hres
          rcases ih (some txt) (countRepl txt) t
              (fun u' hu' => by rw [Option.some.inj hu']) hres with h | ⟨-, h⟩
          · exact Or.inl (Nat.lt_trans h hlt)
          · exact Or.inl (h ▸ hlt)
      · rw [if_neg hlt] at hres
        exact ih bt bb t hstate hres

lemma plugin_go_min (decode : String → Option String) :
    ∀ (cands : List String) (bt : Option String) (bb : Nat) (t : String),
      (∀ u', bt = some u' → bb = countRepl u') →
      plugin_decode_go decode cands (bt, bb) = some t →
      (∀ u', bt = some u' → countRepl t ≤ bb) ∧
      (bt = some t ∨ ∃ c ∈ cands, decode c = some t) ∧
      (∀ c ∈ cands, ∀ u, decode c = some u → countRepl t ≤ countRepl u) := by
  intro cands
  induction cands with
  | nil =>
    intro bt bb t hstate hres
    rw [plugin_decode_go] at hres
    refine ⟨?_, Or.inl hres, by simp⟩
    intro u' hu'
    rw [hu'] at hres
    rw [hstate u' hu', Option.some.inj hres]
  | cons ec rest ih =>
    intro bt bb t hstate hres
    rw [plugin_decode_go] at hres
    cases hdec : decode ec with
    | none =>
      rw [hdec] at hres
      dsimp only at hres
      obtain ⟨hA, hB, hC⟩ := ih bt bb t hstate hres
      refine ⟨hA, ?_, ?_⟩
      · rcases hB with h | ⟨c, hc, hcd⟩
        · exact Or.inl h
        · exact Or.inr ⟨c, List.mem_cons_of_mem _ hc, hcd⟩
      · intro c hc u hu
        rcases List.mem_cons.mp hc with rfl | hc2
        · rw [hdec] at hu; exact absurd hu (by simp)
        · exact hC c hc2 u hu
    | some txt =>
      rw [hdec] at hres
      dsimp only at hres
      by_cases hlt : countRepl txt < bb
      · rw [if_pos hlt] at hres
        by_cases hz : countRepl txt = 0
        · rw [if_pos hz] at hres
          have ht : t = txt := (Option.some.inj hres).symm
          have hct : countRepl t = 0 := by rw [ht, hz]
          refine ⟨fun u' _ => by rw [hct]; exact Nat.zero_le _, ?_, ?_⟩
          · exact Or.inr ⟨ec, List.mem_cons_self _ _, by rw [hdec, ht]⟩
          · intro c _ u _
            rw [hct]
            exact Nat.zero_le _
        · rw [if_neg hz] at hres
          obtain ⟨hA, hB, hC⟩ := ih (some txt) (countRepl txt) t
            (fun u' hu' => by rw [Option.some.inj hu']) hres
          have htb : countRepl t ≤ countRepl txt := hA txt rfl
          refine ⟨fun u' _ => Nat.le_trans htb (Nat.le_of_lt hlt), ?_, ?_⟩
          · rcases hB with h | ⟨c, hc, hcd⟩
            · exact Or.inr ⟨ec, List.mem_cons_self _ _, by rw [hdec, h]⟩
            · exact Or.inr ⟨c, List.mem_cons_of_mem _ hc, hcd⟩
          · intro c hc u hu
            rcases List.mem_cons.mp hc with rfl | hc2
            · rw [hdec] at hu
              rw [← Option.some.inj hu]
              exact htb
            · exact hC c hc2 u hu
      · rw [if_neg hlt] at hres
        obtain ⟨hA, hB, hC⟩ := ih bt bb t hstate hres
        refine ⟨hA, ?_, ?_⟩
        · rcases hB with h | ⟨c, hc, hcd⟩
          · exact Or.inl h
          · exact Or.inr ⟨c, List.mem_cons_of_mem _ hc, hcd⟩
        · intro c hc u hu
          rcases List.mem_cons.mp hc with rfl | hc2
          · rw [hdec] at hu
            rw [← Option.some.inj hu]
            have hb2 := plugin_go_bound decode rest bt bb t hstate hres
            have hle : countRepl t ≤ bb := by
              rcases hb2 with h | ⟨-, h⟩
              · exact Nat.le_of_lt h
              · exact Nat.le_of_eq h
            exact Nat.le_trans hle (Nat.le_of_not_lt hlt)
          · exact hC c hc2 u hu

/-- Counterexample to C5 as stated: on a decode table where the first
candidate (gb18030) already decodes with zero substitutions, the shared
`_decode_with_best` of `src/utils/tool.py` does not stop there — its utf-8
tie preference makes it return the later utf-8 decode instead of the first
zero-substitution candidate's decode. -/
theorem c5_stops_early_counterexample :
    countRepl "A" = 0 ∧ countRepl "B" = 0 ∧
    exDecode "gb18030" = some "A" ∧ exDecode "utf-8" = some "B" ∧
    firstZeroDecode exDecode ["gb18030", "utf-8"] = some "A" ∧
    decode_with_best exDecode ["gb18030", "utf-8"] = some "B" ∧
    decode_with_best exDecode ["gb18030", "utf-8"] ≠
      firstZeroDecode exDecode ["gb18030", "utf-8"] := by
  decide

/-- C5 (amended): every returned decode carries the lowest
replacement-character count among all candidates' decodes; the plugin
fetchers' decode loop does stop early at the first candidate yielding zero
substitutions and returns its text, but the shared `tool.py` helper examines
all candidates and on ties prefers utf-8, so it may return a later utf-8
decode rather than the first zero-substitution candidate's decode. -/
theorem c5_decode_scoring_amended :
    (∀ (decode : String → Option String) (cands : List String) (t : String),
      decode_with_best decode cands = some t →
      (∃ c ∈ cands, decode c = some t) ∧
      (∀ c ∈ cands, ∀ u, decode c = some u → countRepl t ≤ countRepl u)) ∧
    (∀ (decode : String → Option String) (cands : List String) (t : String),
      firstZeroDecode decode cands = some t →
      plugin_decode_loop decode cands = some t) ∧
    (∀ (decode : String → Option String) (cands : List String) (t : String),
      plugin_decode_loop decode cands = some t →
      (∃ c ∈ cands, decode c = some t) ∧
      (∀ c ∈ cands, ∀ u, decode c = some u → countRepl t ≤ countRepl u)) := by
  refine ⟨?_, ?_, ?_⟩
  · intro decode cands t h
    obtain ⟨-, hB, hC⟩ := decode_go_min decode cands none (10 ^ 9) none t (by simp) h
    refine ⟨?_, hC⟩
    rcases hB with h2 | h2
    · exact absurd h2 (by simp)
    · exact h2
  · intro decode cands t h
    exact plugin_go_firstZero decode cands none (10 ^ 9) t (by norm_num) h
  · intro decode cands t h
    obtain ⟨-, hB, hC⟩ := plugin_go_min decode cands none (10 ^ 9) t (by simp) h
    refine ⟨?_, hC⟩
    rcases hB with h2 | h2
    · exact absurd h2 (by simp)
    · exact h2

/-- A decode table where gb18030 produces one replacement character and
utf-8 a clean text. -/
def exDecodeW : String → Option String :=
  fun e => if e = "gb18030" then some "x�" else if e = "utf-8" then some "Y" else none

/-- Witness for the amended C5 at a concrete decode table. -/
theorem c5_decode_scoring_amended_witness :
    countRepl "Y" ≤ countRepl "x�" ∧
    plugin_decode_loop exDecodeW ["gb18030", "utf-8"] = some "Y" :=
  ⟨(c5_decode_scoring_amended.1 exDecodeW ["gb18030", "utf-8"] "Y" (by decide)).2
      "gb18030" (by decide) "x�" (by decide),
   c5_decode_scoring_amended.2.1 exDecodeW ["gb18030", "utf-8"] "Y" (by decide)⟩

/-! ### URL validation and the fetch retry loop (`src/utils/tool.py`) -/

/-- Characters allowed in a URL scheme after the leading letter. -/
def isSchemeChar (c : Char) : Bool := c.isAlphanum || c = '+' || c = '-' || c = '.'

/-- Split at the first colon, returning the parts before and after it. -/
def findColon : List Char → Option (List Char × List Char)
  | [] => none
  | c :: rest =>
    if c = ':' then some ([], rest)
    else (findColon rest).map (fun p => (c :: p.1, p.2))

/-- A valid scheme component: nonempty, leading ASCII letter, scheme
characters throughout (as `urllib.parse.urlparse` requires). -/
def validScheme (pre : List Char) : Bool :=
  match pre with
  | [] => false
  | c :: rest => c.isAlpha && (c :: rest).all isSchemeChar

/-- The scheme/remainder split of `urlparse`: the part before the first
colon becomes the (lowercased) scheme when well formed, otherwise the whole
string stays as the remainder. -/
def splitSchemeF (cs : List Char) : List Char × List Char :=
  match findColon cs with
  | some (pre, post) =>
    if validScheme pre then (pre.map Char.toLower, post) else ([], cs)
  | none => ([], cs)

/-- The netloc of `urlparse`: present only after a leading double slash, up
to the next slash, question mark or hash. -/
def netlocOf (cs : List Char) : List Char :=
  match cs with
  | '/' :: '/' :: rest => rest.takeWhile (fun c => !(c = '/' || c = '?' || c = '#'))
  | _ => []

/-- The input preprocessing of `urlsplit`: strip leading C0-control and
space characters, then delete every tab, carriage return and newline. -/
def urlPreprocess (cs : List Char) : List Char :=
  (cs.dropWhile (fun c => decide (c.toNat ≤ 32))).filter
    (fun c => !(c = '\t' || c = '\r' || c = '\n'))

/-- Shallow embedding of `is_valid_url` (`src/utils/tool.py` lines 177-183):
`urlparse` the string and require both a scheme and a netloc; an unbalanced
square bracket in the netloc makes `urlparse` raise `ValueError`, which the
`except` turns into `False`. -/
def is_valid_url (url : String) : Bool :=
  let p := splitSchemeF (urlPreprocess url.data)
  let nl := netlocOf p.2
  if (nl.contains '[') != (nl.contains ']') then false
  else !p.1.isEmpty && !nl.isEmpty

/-- One network attempt: either a raised `requests.RequestException`
(timeouts, connection errors, and the non-2xx statuses turned into
exceptions by `raise_for_status`), or a response carrying the body bytes,
the apparent encoding, the Content-Type header, the declared encoding and
the per-codec decode behaviour of the body. -/
inductive NetOutcome where
  | fail : NetOutcome
  | ok : List Char → Option String → String → Option String →
      (String → Option String) → NetOutcome

/-- The attempt loop of `get_html_from_url` (`src/utils/tool.py` lines
66-174) over the remaining attempts, counting issued requests: a successful
response is decoded through the candidate list and returned (a fully
undecodable body returns `None` without retrying); a network failure
retries while attempts remain and otherwise returns `None`. -/
def fetchGo (net : Nat → NetOutcome) : Nat → Nat → Option String × Nat
  | 0, issued => (none, issued)
  | rem + 1, issued =>
    match net issued with
    | NetOutcome.ok data apparent ct respEnc decode =>
      (decode_with_best decode (buildCandidates data apparent ct respEnc), issued + 1)
    | NetOutcome.fail =>
      if rem = 0 then (none, issued + 1)
      else fetchGo net rem (issued + 1)

/-- Shallow embedding of `get_html_from_url` (`src/utils/tool.py` lines
42-174), with the network abstracted as the outcome of each attempt; the
second component counts the network requests issued. -/
def get_html_from_url (url : String) (retries : Nat) (net : Nat → NetOutcome) :
    Option String × Nat :=
  if is_valid_url url = false then (none, 0)
  else fetchGo net retries 0

lemma fetchGo_allFail {net : Nat → NetOutcome} (hnet : ∀ i, net i = NetOutcome.fail) :
    ∀ (rem issued : Nat), fetchGo net rem issued = (none, issued + rem) := by
  intro rem
  induction rem with
  | zero => intro issued; rfl
  | succ r ih =>
    intro issued
    rw [fetchGo, hnet issued]
    by_cases hr : r = 0
    · rw [if_pos hr, hr]
    · rw [if_neg hr, ih (issued + 1)]
      rw [Prod.mk.injEq]
      exact ⟨rfl, by omega⟩

/-- C7: a syntactically invalid URL (missing scheme or host) short-circuits
with a `None` failure result and zero network requests issued; and when
every network attempt fails, the fetcher consumes exactly the configured
number of attempts and returns the typed failure value `None` instead of
letting the exception escape. -/
theorem c7_fetch_failure_paths :
    ∀ (url : String) (retries : Nat) (net : Nat → NetOutcome),
      (is_valid_url url = false → get_html_from_url url retries net = (none, 0)) ∧
      ((∀ i, net i = NetOutcome.fail) →
        get_html_from_url url retries net =
          (none, if is_valid_url url = true then retries else 0)) ∧
      is_valid_url "no-scheme/path" = false ∧
      is_valid_url "http://example.com/x" = true := by
  intro url retries net
  refine ⟨?_, ?_, by decide, by decide⟩
  · intro h
    rw [get_html_from_url, if_pos h]
  · intro hnet
    by_cases hv : is_valid_url url = true
    · rw [get_html_from_url, if_neg (by rw [hv]; simp), fetchGo_allFail hnet, if_pos hv]
      rw [Prod.mk.injEq]
      exact ⟨rfl, by omega⟩
    · rw [get_html_from_url, if_pos (by simpa using hv)]
      rw [if_neg hv]

/-- Witness for C7: a relative URL issues no request; three failing attempts
on a well-formed URL consume exactly three requests and return `None`. -/
theorem c7_fetch_failure_paths_witness :
    get_html_from_url "no-scheme/path" 3 (fun _ => NetOutcome.fail) = (none, 0) ∧
    get_html_from_url "http://example.com/x" 3 (fun _ => NetOutcome.fail) = (none, 3) :=
  ⟨(c7_fetch_failure_paths "no-scheme/path" 3 (fun _ => NetOutcome.fail)).1 (by decide),
   ((c7_fetch_failure_paths "http://example.com/x" 3 (fun _ => NetOutcome.fail)).2.1
      (fun i => rfl)).trans (by decide)⟩
